import Mathlib

/-!
Verification of the titan filesystem metadata engine
(`src/database/mysql/mysql.go`).

Modelling conventions, applied uniformly:

* The MySQL database is a `State` value: one Lean list per table, plus the
  two stats counters and the `AUTO_INCREMENT` cursors of `inodes` and
  `chunks`.  An SQL `INSERT` appends to the list, an `UPDATE ... WHERE`
  maps over the rows matching the `WHERE` clause.
* Each driver method runs one transaction and is a function
  `State → ... → Except Err ...`.  A method that returns an error has
  rolled its transaction back, so the database keeps the pre-call state;
  the `...S` wrappers below make that explicit.
* Machine integers (`uint64`, `uint32`) are `Nat`.  Every subtraction the
  Go code or the SQL performs happens under a guard that rules out
  underflow, so truncated `Nat` subtraction agrees with the source.
* The nullable chunk columns `inode`, `objectoffset`, `inodeoffset`,
  `size` are set and cleared together by the source (inserts fill all
  four, orphaning nulls all four and sets `orphandate`), so they are
  modelled as one `Option LivePart`; `live = none` is an orphaned chunk
  (null `inode`, `orphandate` set).
* Timestamp columns (`atime`, `mtime`, `ctime`, `crtime`, `orphandate`'s
  date value) and the wall clock are outside the model: no claim under
  verification mentions time.  The `UTC_TIMESTAMP()` updates are no-ops
  here.
* `treatError` and `getInode` live elsewhere in the repository (only
  their call sites are under `src/`).  Modelled from the spec: scanning a
  row that is absent yields `ENOENT` (spec §4.1 `Get`, §7), a duplicate
  primary key on insert or update yields `EEXIST` (spec §7), any other
  store failure is the opaque `Err.StoreFail`.
* `Get` takes an extra `ioErr : Bool` fault-injection argument modelling
  a store I/O failure of the underlying `row.Scan`; the Go code collapses
  any scan failure into `syscall.ENOENT` (mysql.go:411-414).
-/

/-- POSIX-style error results of the driver, plus `StoreFail` for a store
error that the (spec-modelled) `treatError` passes through verbatim. -/
inductive Err where
  | ENOENT
  | ENOTDIR
  | ENOTEMPTY
  | ENODATA
  | EEXIST
  | StoreFail
deriving DecidableEq, Repr

/-- Row of the `inodes` table (timestamp columns omitted, see header). -/
structure Inode where
  id : Nat
  mode : Nat
  uid : Nat
  gid : Nat
  size : Nat
  refcount : Nat
  target : String
deriving DecidableEq, Repr

/-- Row of the `entries` table; `(parent, name)` is the primary key. -/
structure Entry where
  parent : Nat
  name : String
  inode : Nat
deriving DecidableEq, Repr

/-- Non-null part of a `chunks` row: the four columns that the source
always fills together on insert and nulls together on orphaning. -/
structure LivePart where
  inode : Nat
  objectoffset : Nat
  inodeoffset : Nat
  size : Nat
deriving DecidableEq, Repr

/-- Row of the `chunks` table.  `live = none` models an orphaned row:
`inode`, `objectoffset`, `inodeoffset`, `size` NULL and `orphandate`
set. -/
structure ChunkRow where
  id : Nat
  storage : String
  key : String
  live : Option LivePart
deriving DecidableEq, Repr

/-- Payload of a chunk insert (`AddChunk`'s argument and the rows built
by the splice loop): a `chunks` row minus its auto-generated id. -/
structure ChunkData where
  storage : String
  key : String
  objectoffset : Nat
  inodeoffset : Nat
  size : Nat
deriving DecidableEq, Repr

/-- Row of the `xattr` table; `(inode, key)` is the primary key. -/
structure XattrRow where
  inode : Nat
  key : String
  value : String
deriving DecidableEq, Repr

/-- The whole database. -/
structure State where
  inodes : List Inode
  entries : List Entry
  chunks : List ChunkRow
  xattrs : List XattrRow
  statsInodes : Nat
  statsSize : Nat
  nextInodeId : Nat
  nextChunkId : Nat
deriving DecidableEq, Repr

/-- Result of `Setup` (mysql.go:45-77): empty tables except the root
inode (id 1, mode `0o40777` = 2147484159, refcount 1) and the stats row
`(inodes = 1, size = 0)`; the next auto-increment ids are 2 and 1. -/
def setupState : State :=
  { inodes := [⟨1, 2147484159, 0, 0, 0, 1, ""⟩]
    entries := []
    chunks := []
    xattrs := []
    statsInodes := 1
    statsSize := 0
    nextInodeId := 2
    nextChunkId := 1 }

/-- SELECT of an `inodes` row by primary key. -/
def findInode (s : State) (iid : Nat) : Option Inode :=
  s.inodes.find? (fun i => i.id == iid)

/-- SELECT of an `entries` row by primary key `(parent, name)`. -/
def findEntry (s : State) (parent : Nat) (name : String) : Option Entry :=
  s.entries.find? (fun e => e.parent == parent && e.name == name)

/-- Subquery `SELECT count(*) FROM entries ce WHERE ce.parent = ?`
(mysql.go:335). -/
def countChildren (s : State) (iid : Nat) : Nat :=
  (s.entries.filter (fun e => e.parent == iid)).length

/-- Number of `entries` rows whose `inode` column references `iid`. -/
def countRef (s : State) (iid : Nat) : Nat :=
  (s.entries.filter (fun e => e.inode == iid)).length

/-- SELECT of an `xattr` row by primary key `(inode, key)`. -/
def findXattr (s : State) (iid : Nat) (attr : String) : Option XattrRow :=
  s.xattrs.find? (fun x => x.inode == iid && x.key == attr)

/-- `os.FileMode.IsDir`: the directory bit is bit 31 of the stored
mode. -/
def modeIsDir (m : Nat) : Bool :=
  m.testBit 31

/-- INSERT INTO chunks(inode, storage, `key`, objectoffset, inodeoffset,
size): appends a live row carrying the next auto-increment id. -/
def insertChunk (s : State) (iid : Nat) (d : ChunkData) : State :=
  { s with
    chunks := s.chunks ++
      [⟨s.nextChunkId, d.storage, d.key,
        some ⟨iid, d.objectoffset, d.inodeoffset, d.size⟩⟩]
    nextChunkId := s.nextChunkId + 1 }

/-- UPDATE chunks SET size = ?, inodeoffset = ?, objectoffset = ?
WHERE id = ? (mysql.go:632), and the orphaning batch UPDATE
(mysql.go:663 / 527) when `v = none`: replace the nullable column group
of every row matching the id. -/
def setLiveById (cs : List ChunkRow) (cid : Nat) (v : Option LivePart) :
    List ChunkRow :=
  cs.map (fun r => if r.id == cid then { r with live := v } else r)

/-- UPDATE chunks SET size = ? WHERE id = ? (mysql.go:486); the row is
live when the source issues this statement. -/
def setSizeById (cs : List ChunkRow) (cid : Nat) (v : Nat) :
    List ChunkRow :=
  cs.map (fun r =>
    if r.id == cid then
      { r with live := r.live.map (fun l => { l with size := v }) }
    else r)

/-- Get (mysql.go:403-418).  `ioErr` injects a store I/O failure into
`row.Scan`; the source maps every scan failure — absent row or store
error alike — to `syscall.ENOENT`. -/
def Get (s : State) (iid : Nat) (ioErr : Bool) : Except Err Inode :=
  if ioErr then .error .ENOENT
  else
    match findInode s iid with
    | some i => .ok i
    | none => .error .ENOENT

/-- Modelled from the spec: `getInode` (called at mysql.go:99, 184, 430,
551 but defined outside `src/`) fetches the inode row inside the
transaction; per spec §4.1, absence is `ENOENT` (the scan's no-rows
error through `treatError`). -/
def getInode (s : State) (iid : Nat) : Except Err Inode :=
  match findInode s iid with
  | some i => .ok i
  | none => .error .ENOENT

/-- Argument of `Create` (the `database.Entry` input): `id = 0` means
allocate a fresh inode, otherwise hard-link the existing inode `id`. -/
structure CreateArgs where
  parent : Nat
  name : String
  id : Nat
  mode : Nat
  uid : Nat
  gid : Nat
  symlink : String
deriving DecidableEq, Repr

/-- Create (mysql.go:93-175).  Returns the id the entry ended up bound
to together with the committed state. -/
def Create (s : State) (a : CreateArgs) : Except Err (Nat × State) :=
  match getInode s a.parent with
  | .error e => .error e
  | .ok parentInode =>
    if !modeIsDir parentInode.mode then .error .ENOTDIR
    else
      -- new-inode path: bump stats.inodes, insert the inode row
      let (s1, theId, needsRefcountChange) : State × Nat × Bool :=
        if a.id == 0 then
          ({ s with
              statsInodes := s.statsInodes + 1
              inodes := s.inodes ++
                [⟨s.nextInodeId, a.mode, a.uid, a.gid, 0, 1, a.symlink⟩]
              nextInodeId := s.nextInodeId + 1 },
            s.nextInodeId, false)
        else (s, a.id, true)
      match getInode s1 theId with
      | .error e => .error e
      | .ok _ =>
        -- INSERT INTO entries: (parent, name) is the primary key, a
        -- duplicate is the store's unique violation (spec-modelled
        -- treatError: EEXIST)
        if (findEntry s1 a.parent a.name).isSome then .error .EEXIST
        else
          let s2 := { s1 with
            entries := s1.entries ++ [⟨a.parent, a.name, theId⟩] }
          let bumped := s2.inodes.map (fun i =>
            if i.id == theId then { i with refcount := i.refcount + 1 }
            else i)
          let s3 :=
            if needsRefcountChange then { s2 with inodes := bumped }
            else s2
          .ok (theId, s3)

/-- unlink helper (mysql.go:331-354): scan the entry together with its
target's child count, refuse `ENOTEMPTY` when the target has children,
otherwise delete the entry and decrement the target's refcount. -/
def unlink (s : State) (parent : Nat) (name : String) : Except Err State :=
  match findEntry s parent name with
  | none => .error .ENOENT
  | some e =>
    if countChildren s e.inode > 0 then .error .ENOTEMPTY
    else
      let entries' := s.entries.filter
        (fun e2 => !(e2.parent == parent && e2.name == name))
      let inodes' := s.inodes.map (fun i =>
        if i.id == e.inode then { i with refcount := i.refcount - 1 }
        else i)
      .ok { s with entries := entries', inodes := inodes' }

/-- Unlink (mysql.go:312-329): `unlink` in its own transaction. -/
def Unlink (s : State) (parent : Nat) (name : String) : Except Err State :=
  unlink s parent name

/-- UPDATE entries SET parent = ?, name = ? WHERE parent = ? AND
name = ? (mysql.go:364), with MySQL semantics: a violated `(parent,
name)` primary key aborts the statement (spec-modelled treatError:
EEXIST), and the driver counts *changed* rows, so updating the row to
its current values reports 0 rows affected.  The model reads the single
matching row through the primary key. -/
def renameUpdate (s : State) (oldParent : Nat) (oldName : String)
    (newParent : Nat) (newName : String) : Except Err (State × Nat) :=
  match findEntry s oldParent oldName with
  | none => .ok (s, 0)
  | some e =>
    if e.parent == newParent && e.name == newName then .ok (s, 0)
    else if s.entries.any (fun e2 =>
        !(e2.parent == oldParent && e2.name == oldName) &&
        e2.parent == newParent && e2.name == newName) then
      .error .EEXIST
    else
      let entries' := s.entries.map (fun e2 =>
        if e2.parent == oldParent && e2.name == oldName then
          { e2 with parent := newParent, name := newName }
        else e2)
      .ok ({ s with entries := entries' }, 1)

/-- Rename (mysql.go:357-381).  The return value of the preliminary
destination unlink is discarded (mysql.go:363); a relocation update that
affected no rows is `ENOENT`. -/
def Rename (s : State) (oldParent : Nat) (oldName : String)
    (newParent : Nat) (newName : String) : Except Err State :=
  let s1 :=
    match unlink s newParent newName with
    | .ok t => t
    | .error _ => s
  match renameUpdate s1 oldParent oldName newParent newName with
  | .error e => .error e
  | .ok (s2, rowsAffected) =>
    if rowsAffected == 0 then .error .ENOENT else .ok s2

/-- SELECT ... FROM chunks WHERE inode = ? AND inodeoffset + size > ?
FOR UPDATE (mysql.go:451): the scan of Touch's shrink branch, as the
non-null row part when the row matches. -/
def touchSel (iid sz' : Nat) (c : ChunkRow) : Option LivePart :=
  match c.live with
  | some l =>
    if l.inode == iid && sz' < l.inodeoffset + l.size then some l
    else none
  | none => none

/-- Straight-line body of `Touch` (mysql.go:436-537), after the initial
`getInode` read produced `i0`. -/
def touchBody (s : State) (iid : Nat) (i0 : Inode) (size? : Option Nat)
    (mode? : Option Nat) (uid? : Option Nat) (gid? : Option Nat) :
    Inode × State :=
    -- the size branch runs only when a size is given and differs
    let resize : Option Nat :=
      match size? with
      | some sz' => if sz' != i0.size then some sz' else none
      | none => none
    let (s1, chunksToBeDeleted) : State × List Nat :=
      match resize with
      | none => (s, ([] : List Nat))
      | some sz' =>
        if i0.size < sz' then
          -- grow: one zero-fill chunk [i0.size, sz'), stats.size += delta
          let t := insertChunk s iid
            ⟨"zero", "", 0, i0.size, sz' - i0.size⟩
          ({ t with statsSize := t.statsSize + (sz' - i0.size) }, [])
        else
          -- shrink: trim or orphan every chunk reaching past sz'
          let chunksToBeUpdated : List (Nat × Nat) :=
            s.chunks.filterMap (fun c =>
              (touchSel iid sz' c).bind (fun l =>
                if l.inodeoffset < sz' then
                  some (c.id, sz' - l.inodeoffset)
                else none))
          let toDelete : List Nat :=
            s.chunks.filterMap (fun c =>
              (touchSel iid sz' c).bind (fun l =>
                if l.inodeoffset < sz' then none else some c.id))
          let cs1 := chunksToBeUpdated.foldl
            (fun cs u => setSizeById cs u.1 u.2) s.chunks
          ({ s with
              chunks := cs1
              statsSize := s.statsSize - (i0.size - sz') },
            toDelete)
    let i1 : Inode :=
      { i0 with
        size := match resize with | some sz' => sz' | none => i0.size }
    let i2 : Inode :=
      { i1 with
        mode := mode?.getD i1.mode
        uid := uid?.getD i1.uid
        gid := gid?.getD i1.gid }
    -- UPDATE inodes SET mode = ?, uid = ?, gid = ?, size = ? WHERE id
    let inodes2 := s1.inodes.map (fun j =>
      if j.id == i2.id then
        { j with mode := i2.mode, uid := i2.uid, gid := i2.gid,
                 size := i2.size }
      else j)
    let s2 := { s1 with inodes := inodes2 }
    -- batch orphaning of the chunks collected for deletion
    let cs3 := chunksToBeDeleted.foldl
      (fun cs cid => setLiveById cs cid none) s2.chunks
    let s3 := { s2 with chunks := cs3 }
    (i2, s3)

/-- Touch (mysql.go:421-538).  `atime`/`mtime` arguments are dropped
with the other timestamps (see header); returns the post-mutation inode
snapshot and the committed state. -/
def Touch (s : State) (iid : Nat) (size? : Option Nat)
    (mode? : Option Nat) (uid? : Option Nat) (gid? : Option Nat) :
    Except Err (Inode × State) :=
  match getInode s iid with
  | .error e => .error e
  | .ok i0 => .ok (touchBody s iid i0 size? mode? uid? gid?)

/-- SELECT ... FROM chunks WHERE inode = ? AND inodeoffset < off + len
AND inodeoffset + size > off FOR UPDATE (mysql.go:570): the overlap scan
of `AddChunk`, as the non-null row part when the row matches. -/
def spliceSel (iid off len : Nat) (c : ChunkRow) : Option LivePart :=
  match c.live with
  | some l =>
    if l.inode == iid && l.inodeoffset < off + len &&
        off < l.inodeoffset + l.size then
      some l
    else none
  | none => none

/-- Test of mysql.go:596: the scanned chunk lies fully inside the
written interval. -/
def chunkCovered (off len : Nat) (l : LivePart) : Bool :=
  off ≤ l.inodeoffset && l.inodeoffset + l.size ≤ off + len

/-- Test of mysql.go:601: the scanned chunk strictly contains the
written interval on both sides. -/
def chunkStrictlyContains (off len : Nat) (l : LivePart) : Bool :=
  l.inodeoffset < off && off + len < l.inodeoffset + l.size

/-- Right half produced by the split of a strictly-containing chunk
(mysql.go:602-611): keeps the row's storage and key, starts at
`off + len`, its object offset advanced by the distance moved. -/
def spliceRight (off len : Nat) (c : ChunkRow) (l : LivePart) :
    ChunkData :=
  { storage := c.storage
    key := c.key
    objectoffset := l.objectoffset + (off + len - l.inodeoffset)
    inodeoffset := off + len
    size := l.inodeoffset + l.size - (off + len) }

/-- In-place trim of a scanned, not fully covered chunk
(mysql.go:614-624): to its left overhang when it starts before `off`,
otherwise to its right overhang. -/
def spliceTrim (iid off len : Nat) (l : LivePart) : LivePart :=
  let newInodeOffset :=
    if l.inodeoffset < off then l.inodeoffset else off + len
  let newInodeEnd :=
    if l.inodeoffset < off then off else l.inodeoffset + l.size
  { inode := iid
    objectoffset := l.objectoffset + (newInodeOffset - l.inodeoffset)
    inodeoffset := newInodeOffset
    size := newInodeEnd - newInodeOffset }

/-- Overlap-resolution stage of `AddChunk` (mysql.go:570-673) on the
transaction state `s1` reached after the sparse-gap insert: one scan
pass classifies every overlapping chunk, then the collected updates,
inserts, size/stats writes and the orphaning batch are applied. -/
def splicePipeline (s1 : State) (iid : Nat) (i : Inode)
    (chunk : ChunkData) : State :=
    let off := chunk.inodeoffset
    let len := chunk.size
    let chunksToBeDeleted : List Nat :=
      s1.chunks.filterMap (fun c =>
        (spliceSel iid off len c).bind (fun l =>
          if chunkCovered off len l then some c.id else none))
    let chunksToBeUpdated : List (Nat × LivePart) :=
      s1.chunks.filterMap (fun c =>
        (spliceSel iid off len c).bind (fun l =>
          if chunkCovered off len l then none
          else some (c.id, spliceTrim iid off len l)))
    let chunksToBeInserted : List ChunkData :=
      chunk :: s1.chunks.filterMap (fun c =>
        (spliceSel iid off len c).bind (fun l =>
          if !chunkCovered off len l && chunkStrictlyContains off len l
          then some (spliceRight off len c l)
          else none))
    let cs2 := chunksToBeUpdated.foldl
      (fun cs u => setLiveById cs u.1 (some u.2)) s1.chunks
    let s2 := { s1 with chunks := cs2 }
    let s3 := chunksToBeInserted.foldl (fun t d => insertChunk t iid d) s2
    let newInodeSize := Nat.max i.size (off + len)
    let s4 :=
      if newInodeSize != i.size then
        { s3 with statsSize := s3.statsSize + (newInodeSize - i.size) }
      else s3
    let inodes5 := s4.inodes.map (fun j =>
      if j.id == i.id then { j with size := newInodeSize } else j)
    let s5 := { s4 with inodes := inodes5 }
    let cs6 := chunksToBeDeleted.foldl
      (fun cs cid => setLiveById cs cid none) s5.chunks
    let s6 := { s5 with chunks := cs6 }
    s6

/-- Straight-line body of `AddChunk` (mysql.go:561-673), after the
initial `getInode` read produced `i` and the `O_APPEND` offset rewrite
produced `chunk`: the sparse-gap zero-fill insert (mysql.go:563-568),
then the overlap-resolution pipeline. -/
def addChunkBody (s : State) (iid : Nat) (i : Inode) (chunk : ChunkData) :
    State :=
  let off := chunk.inodeoffset
  let s1 :=
    if i.size < off then
      insertChunk s iid ⟨"zero", "", 0, i.size, off - i.size⟩
    else s
  splicePipeline s1 iid i chunk

/-- AddChunk (mysql.go:541-674). -/
def AddChunk (s : State) (iid : Nat) (flags : Nat) (chunk0 : ChunkData) :
    Except Err State :=
  match getInode s iid with
  | .error e => .error e
  | .ok i =>
    -- O_APPEND (0x400): rewrite the offset to the current size
    let chunk :=
      if flags &&& 1024 != 0 then { chunk0 with inodeoffset := i.size }
      else chunk0
    .ok (addChunkBody s iid i chunk)

/-- GetXattr (mysql.go:794-803): any scan failure is `ENODATA`. -/
def GetXattr (s : State) (iid : Nat) (attr : String) :
    Except Err String :=
  match findXattr s iid attr with
  | some x => .ok x.value
  | none => .error .ENODATA

/-- SetXattr (mysql.go:806-855).  The xattr table's `(inode, key)`
primary key makes the CREATE-flag insert fail on a present key
(spec-modelled treatError: EEXIST); inserting for an absent inode
violates the foreign key, an opaque store failure.  The REPLACE branch
tests `RowsAffected` of its UPDATE (mysql.go:830-838), and the driver
counts *changed* rows (the DSN at mysql.go:30 sets no clientFoundRows
option), so a key already stored with the identical value — exactly
like an absent key — changes no row and the branch rolls back with
`ENODATA`.  The model reads the single matching row through the
primary key. -/
def SetXattr (s : State) (iid : Nat) (attr : String) (value : String)
    (flags : Nat) : Except Err State :=
  if flags == 1 then
    -- CREATE: plain INSERT, the (inode, key) primary key rejects an
    -- existing key
    if (findXattr s iid attr).isSome then .error .EEXIST
    else if (findInode s iid).isNone then .error .StoreFail
    else .ok { s with xattrs := s.xattrs ++ [⟨iid, attr, value⟩] }
  else if flags == 2 then
    -- REPLACE: UPDATE, ENODATA when it changed no rows
    match findXattr s iid attr with
    | some x =>
      if x.value == value then .error .ENODATA
      else
        let xs := s.xattrs.map (fun x2 =>
          if x2.inode == iid && x2.key == attr then
            { x2 with value := value }
          else x2)
        .ok { s with xattrs := xs }
    | none => .error .ENODATA
  else
    -- INSERT ... ON DUPLICATE KEY UPDATE value = VALUES(value)
    if (findXattr s iid attr).isSome then
      let xs := s.xattrs.map (fun x =>
        if x.inode == iid && x.key == attr then { x with value := value }
        else x)
      .ok { s with xattrs := xs }
    else if (findInode s iid).isNone then .error .StoreFail
    else .ok { s with xattrs := s.xattrs ++ [⟨iid, attr, value⟩] }

/-- Committed state after `Create`: on any error the transaction rolled
back and the database is unchanged. -/
def createS (s : State) (a : CreateArgs) : State :=
  match Create s a with
  | .ok (_, t) => t
  | .error _ => s

/-- Committed state after `Unlink` (rollback on error). -/
def unlinkS (s : State) (parent : Nat) (name : String) : State :=
  match Unlink s parent name with
  | .ok t => t
  | .error _ => s

/-- Committed state after `Rename` (rollback on error). -/
def renameS (s : State) (oldParent : Nat) (oldName : String)
    (newParent : Nat) (newName : String) : State :=
  match Rename s oldParent oldName newParent newName with
  | .ok t => t
  | .error _ => s

/-- Committed state after `Touch` (rollback on error). -/
def touchS (s : State) (iid : Nat) (size? : Option Nat)
    (mode? : Option Nat) (uid? : Option Nat) (gid? : Option Nat) : State :=
  match Touch s iid size? mode? uid? gid? with
  | .ok (_, t) => t
  | .error _ => s

/-- Committed state after `AddChunk` (rollback on error). -/
def addChunkS (s : State) (iid : Nat) (flags : Nat) (d : ChunkData) :
    State :=
  match AddChunk s iid flags d with
  | .ok t => t
  | .error _ => s

/-- Committed state after `SetXattr` (rollback on error). -/
def setXattrS (s : State) (iid : Nat) (attr : String) (value : String)
    (flags : Nat) : State :=
  match SetXattr s iid attr value flags with
  | .ok t => t
  | .error _ => s

/-! ## Interval and invariant predicates -/

/-- Disjointness of the half-open intervals `[p.1, p.2)` and
`[q.1, q.2)`. -/
def ivDisjoint (p q : Nat × Nat) : Prop :=
  p.2 ≤ q.1 ∨ q.2 ≤ p.1 ∨ p.2 ≤ p.1 ∨ q.2 ≤ q.1

instance (p q : Nat × Nat) : Decidable (ivDisjoint p q) := by
  unfold ivDisjoint; infer_instance

/-- Membership of a point in an optional half-open interval. -/
def memIvO (x : Nat) (o : Option (Nat × Nat)) : Prop :=
  match o with
  | some p => p.1 ≤ x ∧ x < p.2
  | none => False

/-- Byte interval `[inode_offset, inode_offset + size)` of a chunk row,
provided the row is live and belongs to inode `j`. -/
def liveIv (j : Nat) (c : ChunkRow) : Option (Nat × Nat) :=
  match c.live with
  | some l =>
    if l.inode == j then
      some (l.inodeoffset, l.inodeoffset + l.size)
    else none
  | none => none

/-- Two chunk rows do not overlap as mappings of inode `j`. -/
def rowsDisjoint (j : Nat) (c1 c2 : ChunkRow) : Prop :=
  match liveIv j c1, liveIv j c2 with
  | some p, some q => ivDisjoint p q
  | _, _ => True

instance (j : Nat) (c1 c2 : ChunkRow) : Decidable (rowsDisjoint j c1 c2) := by
  unfold rowsDisjoint
  rcases liveIv j c1 with _ | p <;> rcases liveIv j c2 with _ | q <;>
    first
      | exact isTrue trivial
      | exact inferInstanceAs (Decidable (ivDisjoint _ _))

/-- Spec §8 non-overlap invariant, for the live chunks of inode `j`. -/
def ChunksDisjoint (j : Nat) (cs : List ChunkRow) : Prop :=
  cs.Pairwise (rowsDisjoint j)

/-- The row, when it is a live chunk of inode `j`, stays inside
`[0, sz)`. -/
def rowWithin (j sz : Nat) (c : ChunkRow) : Prop :=
  match c.live with
  | some l => l.inode = j → l.inodeoffset + l.size ≤ sz
  | none => True

instance (j sz : Nat) (c : ChunkRow) : Decidable (rowWithin j sz c) := by
  unfold rowWithin
  rcases c.live with _ | l
  · exact isTrue trivial
  · infer_instance

/-- Spec §8 containment invariant for inode `j` at size `sz`. -/
def ChunksWithin (j sz : Nat) (cs : List ChunkRow) : Prop :=
  ∀ c ∈ cs, rowWithin j sz c

/-- The row, when it is a live chunk of inode `j`, has positive size
(spec §3 chunk invariant `size > 0`). -/
def rowPos (j : Nat) (c : ChunkRow) : Prop :=
  match c.live with
  | some l => l.inode = j → 0 < l.size
  | none => True

instance (j : Nat) (c : ChunkRow) : Decidable (rowPos j c) := by
  unfold rowPos
  rcases c.live with _ | l
  · exact isTrue trivial
  · infer_instance

/-- Positive-size invariant for all live chunks of inode `j`. -/
def ChunksPos (j : Nat) (cs : List ChunkRow) : Prop :=
  ∀ c ∈ cs, rowPos j c

instance (j : Nat) (cs : List ChunkRow) : Decidable (ChunksDisjoint j cs) :=
  inferInstanceAs (Decidable (cs.Pairwise (rowsDisjoint j)))

instance (j sz : Nat) (cs : List ChunkRow) :
    Decidable (ChunksWithin j sz cs) :=
  inferInstanceAs (Decidable (∀ c ∈ cs, rowWithin j sz c))

instance (j : Nat) (cs : List ChunkRow) : Decidable (ChunksPos j cs) :=
  inferInstanceAs (Decidable (∀ c ∈ cs, rowPos j c))

/-- Primary-key / auto-increment discipline of the `chunks` table:
distinct row ids, all below the auto-increment cursor. -/
def chunkIdsOk (s : State) : Prop :=
  (s.chunks.map ChunkRow.id).Nodup ∧ ∀ c ∈ s.chunks, c.id < s.nextChunkId

instance (s : State) : Decidable (chunkIdsOk s) :=
  inferInstanceAs (Decidable ((s.chunks.map ChunkRow.id).Nodup ∧
    ∀ c ∈ s.chunks, c.id < s.nextChunkId))

/-! ## Generic lemmas about the by-id UPDATE folds -/

/-- Folding a per-id row update over a list of updates is a single map
applying, to each row, the fold of the updates that hit its id. -/
theorem foldl_updMap {α : Type} (h : α → ChunkRow → ChunkRow)
    (us : List (Nat × α)) (cs : List ChunkRow) :
    us.foldl
        (fun acc u => acc.map (fun r =>
          if r.id == u.1 then h u.2 r else r)) cs
      = cs.map (fun r => us.foldl (fun r u =>
          if r.id == u.1 then h u.2 r else r) r) := by
  induction us generalizing cs with
  | nil => simp
  | cons u us ih =>
    simp only [List.foldl_cons, ih, List.map_map]
    rfl

/-- A row none of the updates addresses is left alone. -/
theorem innerFold_no_match {α : Type} (h : α → ChunkRow → ChunkRow)
    (us : List (Nat × α)) (r : ChunkRow)
    (hnone : ∀ u ∈ us, u.1 ≠ r.id) :
    us.foldl (fun r u => if r.id == u.1 then h u.2 r else r) r = r := by
  induction us with
  | nil => rfl
  | cons u us ih =>
    have hcond : (r.id == u.1) = false := by
      have := hnone u (List.mem_cons_self u us)
      simp [Ne.symm this]
    simp only [List.foldl_cons, hcond, Bool.false_eq_true, if_false]
    exact ih (fun v hv => hnone v (List.mem_cons_of_mem u hv))

/-- A row addressed by exactly one update receives exactly that
update. -/
theorem innerFold_single {α : Type} (h : α → ChunkRow → ChunkRow)
    (hid : ∀ a r, (h a r).id = r.id)
    (us1 us2 : List (Nat × α)) (a : α) (r : ChunkRow)
    (h1 : ∀ u ∈ us1, u.1 ≠ r.id) (h2 : ∀ u ∈ us2, u.1 ≠ r.id) :
    (us1 ++ (r.id, a) :: us2).foldl
        (fun r u => if r.id == u.1 then h u.2 r else r) r
      = h a r := by
  rw [List.foldl_append, innerFold_no_match h us1 r h1]
  have hstep : (us2.foldl (fun r u => if r.id == u.1 then h u.2 r else r)
      (if r.id == (r.id, a).1 then h (r.id, a).2 r else r)) = h a r := by
    simp only [beq_self_eq_true, if_true]
    exact innerFold_no_match h us2 (h a r)
      (fun v hv => by rw [hid a r]; exact h2 v hv)
  rw [List.foldl_cons]
  exact hstep

/-- Keys appearing in a selector-built update list come from rows of the
source list. -/
theorem mem_selUpdates {α : Type} (sel : ChunkRow → Option α)
    (cs : List ChunkRow) (u : Nat × α)
    (hu : u ∈ cs.filterMap (fun c => (sel c).map (fun a => (c.id, a)))) :
    ∃ c ∈ cs, u.1 = c.id := by
  rcases List.mem_filterMap.mp hu with ⟨c, hc, hmap⟩
  rcases Option.map_eq_some'.mp hmap with ⟨a, _, hpair⟩
  exact ⟨c, hc, by rw [← hpair]⟩

/-- Characterization of the update loops of `Touch` and `AddChunk`: on a
table whose row ids are distinct, folding the per-id updates built by a
selector over the very same table is the rowwise application of the
selector. -/
theorem foldl_selUpdates_eq {α : Type} (sel : ChunkRow → Option α)
    (h : α → ChunkRow → ChunkRow) (hid : ∀ a r, (h a r).id = r.id)
    (cs : List ChunkRow) (hnd : (cs.map ChunkRow.id).Nodup) :
    (cs.filterMap (fun c => (sel c).map (fun a => (c.id, a)))).foldl
        (fun acc u => acc.map (fun r =>
          if r.id == u.1 then h u.2 r else r)) cs
      = cs.map (fun c =>
          match sel c with
          | some a => h a c
          | none => c) := by
  rw [foldl_updMap]
  apply List.map_congr_left
  intro c hc
  rcases List.append_of_mem hc with ⟨L1, L2, rfl⟩
  have hnd' := hnd
  rw [List.map_append, List.map_cons] at hnd'
  have hnotin : c.id ∉ (L1.map ChunkRow.id) ∧ c.id ∉ (L2.map ChunkRow.id) := by
    rcases List.nodup_append.mp hnd' with ⟨hn1, hn2, hdisj⟩
    refine ⟨fun hmem => hdisj hmem (List.mem_cons_self _ _), ?_⟩
    exact fun hmem => (List.nodup_cons.mp hn2).1 hmem
  have hL1 : ∀ u ∈ L1.filterMap (fun c' => (sel c').map (fun a => (c'.id, a))),
      u.1 ≠ c.id := by
    intro u hu
    rcases mem_selUpdates sel L1 u hu with ⟨c', hc', heq⟩
    intro hbad
    have hcid : c.id ∈ L1.map ChunkRow.id := by
      rw [← hbad, heq]
      exact List.mem_map_of_mem ChunkRow.id hc'
    exact hnotin.1 hcid
  have hL2 : ∀ u ∈ L2.filterMap (fun c' => (sel c').map (fun a => (c'.id, a))),
      u.1 ≠ c.id := by
    intro u hu
    rcases mem_selUpdates sel L2 u hu with ⟨c', hc', heq⟩
    intro hbad
    have hcid : c.id ∈ L2.map ChunkRow.id := by
      rw [← hbad, heq]
      exact List.mem_map_of_mem ChunkRow.id hc'
    exact hnotin.2 hcid
  rw [List.filterMap_append, List.filterMap_cons]
  cases hsel : sel c with
  | none =>
    simp only [Option.map_none']
    rw [← List.filterMap_append]
    refine innerFold_no_match h _ c ?_
    intro u hu
    rcases mem_selUpdates sel (L1 ++ L2) u hu with ⟨c', hc', heq⟩
    intro hbad
    rcases List.mem_append.mp hc' with hin | hin
    · have hcid : c.id ∈ L1.map ChunkRow.id := by
        rw [← hbad, heq]
        exact List.mem_map_of_mem ChunkRow.id hin
      exact hnotin.1 hcid
    · have hcid : c.id ∈ L2.map ChunkRow.id := by
        rw [← hbad, heq]
        exact List.mem_map_of_mem ChunkRow.id hin
      exact hnotin.2 hcid
  | some a =>
    simp only [Option.map_some']
    exact innerFold_single h hid _ _ a c hL1 hL2

/-- The batch orphaning UPDATE (a fold of per-id orphanings) is a single
map orphaning every row whose id is listed. -/
theorem foldl_orphan_eq (us : List Nat) (cs : List ChunkRow) :
    us.foldl (fun acc cid => setLiveById acc cid none) cs
      = cs.map (fun r =>
          if us.contains r.id then { r with live := none } else r) := by
  induction us generalizing cs with
  | nil => simp
  | cons u us ih =>
    rw [List.foldl_cons, ih]
    simp only [setLiveById, List.map_map]
    apply List.map_congr_left
    intro r _
    by_cases hr : r.id = u
    · subst hr
      simp
    · have h1 : (r.id == u) = false := by simp [hr]
      simp [Function.comp, h1, List.contains_cons, hr]

/-! ## Derived characterization of the chunk loops -/

/-- Rows produced by a run of chunk INSERTs that starts at
auto-increment id `n`. -/
def rowsFrom (iid n : Nat) : List ChunkData → List ChunkRow
  | [] => []
  | d :: ds =>
    ⟨n, d.storage, d.key,
      some ⟨iid, d.objectoffset, d.inodeoffset, d.size⟩⟩ ::
      rowsFrom iid (n + 1) ds

theorem foldl_insertChunk (ds : List ChunkData) (s : State) (iid : Nat) :
    ds.foldl (fun t d => insertChunk t iid d) s
      = { s with
          chunks := s.chunks ++ rowsFrom iid s.nextChunkId ds
          nextChunkId := s.nextChunkId + ds.length } := by
  induction ds generalizing s with
  | nil => simp [rowsFrom]
  | cons d ds ih =>
    rw [List.foldl_cons, ih]
    simp [insertChunk, rowsFrom, List.append_assoc]
    omega

theorem rowsFrom_id_ge (iid n : Nat) (ds : List ChunkData) :
    ∀ r ∈ rowsFrom iid n ds, n ≤ r.id := by
  induction ds generalizing n with
  | nil => intro r hr; cases hr
  | cons d ds ih =>
    intro r hr
    rcases hr with _ | ⟨_, hr⟩
    · exact Nat.le_refl _
    · exact Nat.le_of_succ_le (ih (n + 1) r hr)

theorem mem_rowsFrom (iid n : Nat) (ds : List ChunkData) (d : ChunkData)
    (hd : d ∈ ds) :
    ∃ k, (⟨k, d.storage, d.key,
      some ⟨iid, d.objectoffset, d.inodeoffset, d.size⟩⟩ : ChunkRow)
        ∈ rowsFrom iid n ds := by
  induction ds generalizing n with
  | nil => cases hd
  | cons d0 ds ih =>
    rcases hd with _ | ⟨_, hd⟩
    · exact ⟨n, List.mem_cons_self _ _⟩
    · rcases ih (n + 1) hd with ⟨k, hk⟩
      exact ⟨k, List.mem_cons_of_mem _ hk⟩

/-- The chunk-UPDATE fold of `AddChunk`, fused into one rowwise map. -/
theorem foldl_setLive_eq (sel : ChunkRow → Option LivePart)
    (cs : List ChunkRow) (hnd : (cs.map ChunkRow.id).Nodup) :
    (cs.filterMap (fun c => (sel c).map (fun a => (c.id, a)))).foldl
        (fun acc u => setLiveById acc u.1 (some u.2)) cs
      = cs.map (fun c =>
          match sel c with
          | some a => { c with live := some a }
          | none => c) := by
  unfold setLiveById
  rw [foldl_selUpdates_eq sel (fun v r => { r with live := some v })
    (fun _ _ => rfl) cs hnd]
  apply List.map_congr_left
  intro c _
  cases hsel : sel c <;> simp [hsel]

/-- The chunk-size UPDATE fold of `Touch`'s shrink branch, fused into
one rowwise map. -/
theorem foldl_setSize_eq (sel : ChunkRow → Option Nat)
    (cs : List ChunkRow) (hnd : (cs.map ChunkRow.id).Nodup) :
    (cs.filterMap (fun c => (sel c).map (fun a => (c.id, a)))).foldl
        (fun acc u => setSizeById acc u.1 u.2) cs
      = cs.map (fun c =>
          match sel c with
          | some v =>
            { c with live := c.live.map (fun l => { l with size := v }) }
          | none => c) := by
  unfold setSizeById
  rw [foldl_selUpdates_eq sel
    (fun v r => { r with live := r.live.map (fun l => { l with size := v }) })
    (fun _ _ => rfl) cs hnd]
  apply List.map_congr_left
  intro c _
  cases hsel : sel c <;> simp [hsel]

/-- Ids collected by a selector over a table come from rows of that
table. -/
theorem mem_selIds {α : Type} (sel : ChunkRow → Option α)
    (cs : List ChunkRow) (x : Nat)
    (hx : x ∈ cs.filterMap (fun c => (sel c).map (fun _ => c.id))) :
    x ∈ cs.map ChunkRow.id := by
  rcases List.mem_filterMap.mp hx with ⟨c, hc, hmap⟩
  rcases Option.map_eq_some'.mp hmap with ⟨a, _, hid⟩
  exact hid ▸ List.mem_map_of_mem ChunkRow.id hc

/-- On a table with distinct row ids, a row's id is among the ids a
selector collected exactly when the selector fires on that row. -/
theorem contains_selIds {α : Type} (sel : ChunkRow → Option α)
    (cs : List ChunkRow) (hnd : (cs.map ChunkRow.id).Nodup)
    (c : ChunkRow) (hc : c ∈ cs) :
    (cs.filterMap (fun c' => (sel c').map (fun _ => c'.id))).contains c.id
      = (sel c).isSome := by
  induction cs with
  | nil => cases hc
  | cons c0 tl ih =>
    rw [List.map_cons, List.nodup_cons] at hnd
    rw [List.filterMap_cons]
    cases hc with
    | head =>
      cases hsel : sel c with
      | some a =>
        simp only [hsel, Option.map_some']
        simp [List.contains_cons]
      | none =>
        simp only [hsel, Option.map_none', Option.isSome_none]
        have hnotin : c.id ∉ tl.filterMap
            (fun c' => (sel c').map (fun _ => c'.id)) := by
          intro hmem
          exact hnd.1 (mem_selIds sel tl c.id hmem)
        simpa using hnotin
    | tail _ hc =>
      have hne : c.id ≠ c0.id := by
        intro hbad
        exact hnd.1 (hbad ▸ List.mem_map_of_mem ChunkRow.id hc)
      cases hsel : sel c0 with
      | some a =>
        simp only [hsel, Option.map_some']
        rw [List.contains_cons]
        have hb : (c.id == c0.id) = false := by simp [hne]
        rw [hb]
        simp only [Bool.false_or]
        exact ih hnd.2 hc
      | none =>
        simp only [hsel, Option.map_none']
        exact ih hnd.2 hc

/-- Selector view of the splice loop's update branch: the trimmed
replacement for a scanned, not fully covered chunk. -/
def spliceUpdSel (iid off len : Nat) (c : ChunkRow) : Option LivePart :=
  (spliceSel iid off len c).bind (fun l =>
    if chunkCovered off len l then none
    else some (spliceTrim iid off len l))

/-- Selector view of the splice loop's delete branch: fires on a
scanned, fully covered chunk. -/
def spliceDelSel (iid off len : Nat) (c : ChunkRow) : Option LivePart :=
  (spliceSel iid off len c).bind (fun l =>
    if chunkCovered off len l then some l else none)

/-- Net effect of the splice pipeline on one pre-existing chunk row:
orphaned when fully covered by the written interval, trimmed when
partially overlapping it, untouched otherwise. -/
def spliceStepRow (iid off len : Nat) (c : ChunkRow) : ChunkRow :=
  match spliceSel iid off len c with
  | some l =>
    if chunkCovered off len l then { c with live := none }
    else { c with live := some (spliceTrim iid off len l) }
  | none => c

/-- Right-half pieces the splice loop inserts for the chunks strictly
containing the written interval. -/
def spliceRights (iid off len : Nat) (cs : List ChunkRow) :
    List ChunkData :=
  cs.filterMap (fun c =>
    (spliceSel iid off len c).bind (fun l =>
      if !chunkCovered off len l && chunkStrictlyContains off len l
      then some (spliceRight off len c l)
      else none))

/-- Derived form of the splice pipeline's result, proved equal to
`splicePipeline` below: each old row mapped through `spliceStepRow`, the
new chunk and the split right halves appended with fresh ids, the stats
and inode sizes adjusted. -/
def spliceResult1 (s1 : State) (iid : Nat) (i : Inode)
    (chunk : ChunkData) : State :=
  let off := chunk.inodeoffset
  let len := chunk.size
  let newDatas := chunk :: spliceRights iid off len s1.chunks
  let newInodeSize := Nat.max i.size (off + len)
  { s1 with
    chunks := s1.chunks.map (spliceStepRow iid off len)
      ++ rowsFrom iid s1.nextChunkId newDatas
    nextChunkId := s1.nextChunkId + newDatas.length
    statsSize := s1.statsSize + (newInodeSize - i.size)
    inodes := s1.inodes.map (fun j =>
      if j.id == i.id then { j with size := newInodeSize } else j) }

theorem updPair_shape (iid off len : Nat) (c : ChunkRow) :
    ((spliceSel iid off len c).bind (fun l =>
      if chunkCovered off len l then none
      else some (c.id, spliceTrim iid off len l)))
    = (spliceUpdSel iid off len c).map (fun a => (c.id, a)) := by
  unfold spliceUpdSel
  cases spliceSel iid off len c with
  | none => rfl
  | some l =>
    by_cases h : chunkCovered off len l <;> simp [h]

theorem delId_shape (iid off len : Nat) (c : ChunkRow) :
    ((spliceSel iid off len c).bind (fun l =>
      if chunkCovered off len l then some c.id else none))
    = (spliceDelSel iid off len c).map (fun _ => c.id) := by
  unfold spliceDelSel
  cases spliceSel iid off len c with
  | none => rfl
  | some l =>
    by_cases h : chunkCovered off len l <;> simp [h]

theorem chunkIdsOk_insertChunk (s : State) (iid : Nat) (d : ChunkData)
    (h : chunkIdsOk s) : chunkIdsOk (insertChunk s iid d) := by
  obtain ⟨hnd, hlt⟩ := h
  constructor
  · simp only [insertChunk, List.map_append, List.map_cons, List.map_nil]
    rw [List.nodup_append]
    refine ⟨hnd, List.nodup_singleton _, ?_⟩
    intro x hx hy
    have : x = s.nextChunkId := by simpa using hy
    subst this
    rcases List.mem_map.mp hx with ⟨c, hc, hcid⟩
    exact absurd hcid (Nat.ne_of_lt (hlt c hc))
  · intro c hc
    simp only [insertChunk] at hc ⊢
    rcases List.mem_append.mp hc with hin | hin
    · exact Nat.lt_succ_of_lt (hlt c hin)
    · have : c = ⟨s.nextChunkId, d.storage, d.key,
        some ⟨iid, d.objectoffset, d.inodeoffset, d.size⟩⟩ := by
        simpa using hin
      subst this
      exact Nat.lt_succ_self _

/-- The conditional stats write of mysql.go:648-655 always amounts to
adding the size delta: the skipped branch has delta zero. -/
theorem statsAdd_if (t : State) (a b : Nat) :
    (if (Nat.max a b != a) = true then
      { t with statsSize := t.statsSize + (Nat.max a b - a) }
    else t)
      = { t with statsSize := t.statsSize + (Nat.max a b - a) } := by
  by_cases h : (Nat.max a b != a) = true
  · rw [if_pos h]
  · rw [if_neg h]
    have hm : Nat.max a b = a := by simpa using h
    rw [hm, Nat.sub_self, Nat.add_zero]

/-- A batch-orphaning map whose id list misses every row of the table
is the identity. -/
theorem map_orphanIf_id (us : List Nat) (L : List ChunkRow)
    (h : ∀ r ∈ L, us.contains r.id = false) :
    L.map (fun r =>
      if us.contains r.id then { r with live := none } else r) = L := by
  induction L with
  | nil => rfl
  | cons r L ih =>
    rw [List.map_cons, h r (List.mem_cons_self r L)]
    simp only [Bool.false_eq_true, if_false, List.cons.injEq, true_and]
    exact ih (fun r' hr' => h r' (List.mem_cons_of_mem r hr'))

theorem splicePipeline_eq (s1 : State) (iid : Nat) (i : Inode)
    (chunk : ChunkData)
    (hnd : (s1.chunks.map ChunkRow.id).Nodup)
    (hlt : ∀ c ∈ s1.chunks, c.id < s1.nextChunkId) :
    splicePipeline s1 iid i chunk = spliceResult1 s1 iid i chunk := by
  simp only [splicePipeline, spliceResult1]
  rw [funext (updPair_shape iid chunk.inodeoffset chunk.size),
    funext (delId_shape iid chunk.inodeoffset chunk.size),
    foldl_setLive_eq (spliceUpdSel iid chunk.inodeoffset chunk.size)
      s1.chunks hnd,
    foldl_insertChunk, statsAdd_if, foldl_orphan_eq]
  dsimp only
  simp only [spliceRights]
  rw [List.map_append, List.map_map]
  congr 1
  congr 1
  · -- old rows: orphan-if-listed composed with the update step is the
    -- per-row splice step
    apply List.map_congr_left
    intro c hc
    have hcont := contains_selIds
      (spliceDelSel iid chunk.inodeoffset chunk.size) s1.chunks hnd c hc
    simp only [Function.comp]
    cases hsel : spliceSel iid chunk.inodeoffset chunk.size c with
    | none =>
      have hu : spliceUpdSel iid chunk.inodeoffset chunk.size c = none := by
        simp [spliceUpdSel, hsel]
      have hd : spliceDelSel iid chunk.inodeoffset chunk.size c = none := by
        simp [spliceDelSel, hsel]
      rw [hd] at hcont
      simp only [Option.isSome_none] at hcont
      simp only [hu]
      rw [hcont]
      simp [spliceStepRow, hsel]
    | some l =>
      by_cases hcov : chunkCovered chunk.inodeoffset chunk.size l
      · have hu : spliceUpdSel iid chunk.inodeoffset chunk.size c = none := by
          simp [spliceUpdSel, hsel, hcov]
        have hd : spliceDelSel iid chunk.inodeoffset chunk.size c = some l := by
          simp [spliceDelSel, hsel, hcov]
        rw [hd] at hcont
        simp only [Option.isSome_some] at hcont
        simp only [hu]
        rw [hcont]
        simp [spliceStepRow, hsel, hcov]
      · have hu : spliceUpdSel iid chunk.inodeoffset chunk.size c
            = some (spliceTrim iid chunk.inodeoffset chunk.size l) := by
          simp [spliceUpdSel, hsel, hcov]
        have hd : spliceDelSel iid chunk.inodeoffset chunk.size c = none := by
          simp [spliceDelSel, hsel, hcov]
        rw [hd] at hcont
        simp only [Option.isSome_none] at hcont
        simp only [hu]
        rw [hcont]
        simp [spliceStepRow, hsel, hcov]
  · -- freshly inserted rows: their ids are new, the orphan list never
    -- hits them
    apply map_orphanIf_id
    intro r hr
    have hge := rowsFrom_id_ge iid s1.nextChunkId _ r hr
    have hnot : r.id ∉ s1.chunks.filterMap (fun x =>
        ((spliceDelSel iid chunk.inodeoffset chunk.size x).map
          (fun _ => x.id))) := by
      intro hmem
      have hin := mem_selIds _ s1.chunks r.id hmem
      rcases List.mem_map.mp hin with ⟨c, hc, hcid⟩
      have := hlt c hc
      omega
    simpa using hnot

theorem addChunkBody_eq (s : State) (iid : Nat) (i : Inode)
    (chunk : ChunkData) (hids : chunkIdsOk s) :
    addChunkBody s iid i chunk
      = spliceResult1
          (if i.size < chunk.inodeoffset then
            insertChunk s iid
              ⟨"zero", "", 0, i.size, chunk.inodeoffset - i.size⟩
          else s) iid i chunk := by
  unfold addChunkBody
  dsimp only
  by_cases hgap : i.size < chunk.inodeoffset
  · rw [if_pos hgap]
    have h1 := chunkIdsOk_insertChunk s iid
      ⟨"zero", "", 0, i.size, chunk.inodeoffset - i.size⟩ hids
    exact splicePipeline_eq _ iid i chunk h1.1 h1.2
  · rw [if_neg hgap]
    exact splicePipeline_eq _ iid i chunk hids.1 hids.2

/-- Reduction of `AddChunk` to its body when the inode exists. -/
theorem AddChunk_ok (s : State) (iid flags : Nat) (chunk0 : ChunkData)
    (i : Inode) (hfind : findInode s iid = some i) :
    AddChunk s iid flags chunk0
      = .ok (addChunkBody s iid i
          (if flags &&& 1024 != 0 then
            { chunk0 with inodeoffset := i.size }
          else chunk0)) := by
  unfold AddChunk getInode
  rw [hfind]

/-! ## Derived characterization of the Touch resize branch -/

/-- Selector view of the shrink loop's update branch: the new size for a
scanned chunk starting below the new file size. -/
def touchUpdSel (iid sz' : Nat) (c : ChunkRow) : Option Nat :=
  (touchSel iid sz' c).bind (fun l =>
    if l.inodeoffset < sz' then some (sz' - l.inodeoffset) else none)

/-- Selector view of the shrink loop's delete branch: fires on a scanned
chunk starting at or past the new file size. -/
def touchDelSel (iid sz' : Nat) (c : ChunkRow) : Option LivePart :=
  (touchSel iid sz' c).bind (fun l =>
    if l.inodeoffset < sz' then none else some l)

/-- Net effect of the shrink branch on one chunk row: end-trimmed to the
new size when it starts below it, orphaned when it starts at or past it,
untouched when it does not reach past it. -/
def touchStepRow (iid sz' : Nat) (c : ChunkRow) : ChunkRow :=
  match touchSel iid sz' c with
  | some l =>
    if l.inodeoffset < sz' then
      { c with live := c.live.map (fun l0 =>
          { l0 with size := sz' - l.inodeoffset }) }
    else { c with live := none }
  | none => c

theorem touchUpdPair_shape (iid sz' : Nat) (c : ChunkRow) :
    ((touchSel iid sz' c).bind (fun l =>
      if l.inodeoffset < sz' then some (c.id, sz' - l.inodeoffset)
      else none))
    = (touchUpdSel iid sz' c).map (fun a => (c.id, a)) := by
  unfold touchUpdSel
  cases touchSel iid sz' c with
  | none => rfl
  | some l =>
    by_cases h : l.inodeoffset < sz' <;> simp [h]

theorem touchDelId_shape (iid sz' : Nat) (c : ChunkRow) :
    ((touchSel iid sz' c).bind (fun l =>
      if l.inodeoffset < sz' then none else some c.id))
    = (touchDelSel iid sz' c).map (fun _ => c.id) := by
  unfold touchDelSel
  cases touchSel iid sz' c with
  | none => rfl
  | some l =>
    by_cases h : l.inodeoffset < sz' <;> simp [h]

/-- Full characterization of `Touch`'s body for a shrinking resize on a
table with primary-key discipline. -/
theorem touchBody_eq_shrink (s : State) (iid : Nat) (i0 : Inode)
    (sz' : Nat) (mode? uid? gid? : Option Nat)
    (hlt : sz' < i0.size) (hids : chunkIdsOk s) :
    touchBody s iid i0 (some sz') mode? uid? gid?
      = (⟨i0.id, mode?.getD i0.mode, uid?.getD i0.uid, gid?.getD i0.gid,
          sz', i0.refcount, i0.target⟩,
        { s with
          chunks := s.chunks.map (touchStepRow iid sz')
          statsSize := s.statsSize - (i0.size - sz')
          inodes := s.inodes.map (fun j =>
            if j.id == i0.id then
              { j with mode := mode?.getD i0.mode, uid := uid?.getD i0.uid,
                       gid := gid?.getD i0.gid, size := sz' }
            else j) }) := by
  have hne : (sz' != i0.size) = true := by
    simp [Nat.ne_of_lt hlt]
  have hnlt : ¬ i0.size < sz' := Nat.not_lt.mpr (Nat.le_of_lt hlt)
  simp only [touchBody, hne, if_true, if_neg hnlt]
  rw [funext (touchUpdPair_shape iid sz'),
    funext (touchDelId_shape iid sz'),
    foldl_setSize_eq (touchUpdSel iid sz') s.chunks hids.1,
    foldl_orphan_eq]
  rw [List.map_map]
  simp only [Prod.mk.injEq, State.mk.injEq]
  refine ⟨trivial, trivial, trivial, ?_,
    trivial, trivial, trivial, trivial, trivial⟩
  apply List.map_congr_left
  intro c hc
  have hcont := contains_selIds (touchDelSel iid sz') s.chunks hids.1 c hc
  simp only [Function.comp]
  cases hsel : touchSel iid sz' c with
  | none =>
    have hu : touchUpdSel iid sz' c = none := by
      simp [touchUpdSel, hsel]
    have hd : touchDelSel iid sz' c = none := by
      simp [touchDelSel, hsel]
    rw [hd] at hcont
    simp only [Option.isSome_none] at hcont
    simp only [hu]
    rw [hcont]
    simp [touchStepRow, hsel]
  | some l =>
    by_cases hoff : l.inodeoffset < sz'
    · have hu : touchUpdSel iid sz' c = some (sz' - l.inodeoffset) := by
        simp [touchUpdSel, hsel, hoff]
      have hd : touchDelSel iid sz' c = none := by
        simp [touchDelSel, hsel, hoff]
      rw [hd] at hcont
      simp only [Option.isSome_none] at hcont
      simp only [hu]
      rw [hcont]
      simp [touchStepRow, hsel, hoff]
    · have hu : touchUpdSel iid sz' c = none := by
        simp [touchUpdSel, hsel, hoff]
      have hd : touchDelSel iid sz' c = some l := by
        simp [touchDelSel, hsel, hoff]
      rw [hd] at hcont
      simp only [Option.isSome_some] at hcont
      simp only [hu]
      rw [hcont]
      simp [touchStepRow, hsel, hoff]

/-- Full characterization of `Touch`'s body for a growing resize. -/
theorem touchBody_eq_grow (s : State) (iid : Nat) (i0 : Inode)
    (sz' : Nat) (mode? uid? gid? : Option Nat) (hgt : i0.size < sz') :
    touchBody s iid i0 (some sz') mode? uid? gid?
      = (⟨i0.id, mode?.getD i0.mode, uid?.getD i0.uid, gid?.getD i0.gid,
          sz', i0.refcount, i0.target⟩,
        { s with
          chunks := s.chunks ++
            [⟨s.nextChunkId, "zero", "",
              some ⟨iid, 0, i0.size, sz' - i0.size⟩⟩]
          nextChunkId := s.nextChunkId + 1
          statsSize := s.statsSize + (sz' - i0.size)
          inodes := s.inodes.map (fun j =>
            if j.id == i0.id then
              { j with mode := mode?.getD i0.mode, uid := uid?.getD i0.uid,
                       gid := gid?.getD i0.gid, size := sz' }
            else j) }) := by
  have hne : (sz' != i0.size) = true := by
    simp [(Nat.ne_of_lt hgt).symm]
  simp only [touchBody, hne, if_true, if_pos hgt, insertChunk]
  rfl

/-- Characterization of `Touch`'s body when no resize happens (no size
argument, or the size argument equals the current size). -/
theorem touchBody_eq_keep (s : State) (iid : Nat) (i0 : Inode)
    (size? mode? uid? gid? : Option Nat)
    (hkeep : size? = none ∨ size? = some i0.size) :
    touchBody s iid i0 size? mode? uid? gid?
      = (⟨i0.id, mode?.getD i0.mode, uid?.getD i0.uid, gid?.getD i0.gid,
          i0.size, i0.refcount, i0.target⟩,
        { s with
          inodes := s.inodes.map (fun j =>
            if j.id == i0.id then
              { j with mode := mode?.getD i0.mode, uid := uid?.getD i0.uid,
                       gid := gid?.getD i0.gid, size := i0.size }
            else j) }) := by
  rcases hkeep with rfl | rfl
  · simp only [touchBody]
    rfl
  · simp only [touchBody, bne_self_eq_false]
    rfl

/-- Reduction of `Touch` to its body when the inode exists. -/
theorem Touch_ok (s : State) (iid : Nat)
    (size? mode? uid? gid? : Option Nat) (i0 : Inode)
    (hfind : findInode s iid = some i0) :
    Touch s iid size? mode? uid? gid?
      = .ok (touchBody s iid i0 size? mode? uid? gid?) := by
  unfold Touch getInode
  rw [hfind]

/-! ## Helper lemmas about lookups after updates -/

/-- GetXattr after the value-UPDATE of an existing key returns the new
value. -/
theorem getXattr_after_upd (s : State) (iid : Nat) (attr v : String)
    (hx : (findXattr s iid attr).isSome) :
    GetXattr { s with xattrs := s.xattrs.map (fun x =>
      if x.inode == iid && x.key == attr then { x with value := v }
      else x) } iid attr = .ok v := by
  unfold GetXattr findXattr
  unfold findXattr at hx
  rw [List.find?_map]
  have hpg : ((fun x : XattrRow => x.inode == iid && x.key == attr) ∘
      (fun x : XattrRow =>
        if x.inode == iid && x.key == attr then { x with value := v }
        else x))
      = (fun x : XattrRow => x.inode == iid && x.key == attr) := by
    funext x
    by_cases h : (x.inode == iid && x.key == attr) = true <;>
      simp [Function.comp, h]
  rw [hpg]
  rcases ho : s.xattrs.find? (fun x => x.inode == iid && x.key == attr) with
    _ | x0
  · rw [ho] at hx
    cases hx
  · have hp := List.find?_some ho
    simp only [Bool.and_eq_true, beq_iff_eq] at hp
    simp [ho, hp.1, hp.2]

/-- GetXattr after a plain INSERT of an absent key returns the inserted
value. -/
theorem getXattr_after_ins (s : State) (iid : Nat) (attr v : String)
    (hx : findXattr s iid attr = none) :
    GetXattr { s with xattrs := s.xattrs ++ [⟨iid, attr, v⟩] } iid attr
      = .ok v := by
  unfold GetXattr findXattr
  unfold findXattr at hx
  rw [List.find?_append, hx]
  simp

/-! ## Claim theorems -/

/-- C8 counterexample: with the root inode present, a store I/O failure
during the scan still comes back as `ENOENT` — the inode row being
absent is not the only way `Get` returns `ENOENT`, and the store error
is not surfaced verbatim. -/
theorem C8_get_counterexample :
    (findInode setupState 1).isSome = true ∧
    Get setupState 1 true = .error .ENOENT := by
  exact ⟨rfl, rfl⟩

/-- C8 (amended): `Get` returns `ENOENT` exactly when the row scan
fails — because the inode row is absent **or** because the store
reports an I/O error; a store error is converted to `ENOENT`, not
surfaced verbatim. -/
theorem C8_get_enoent (s : State) (iid : Nat) (ioErr : Bool) :
    (Get s iid ioErr = .error .ENOENT ↔
      (ioErr = true ∨ findInode s iid = none)) ∧
    (∀ i, Get s iid ioErr = .ok i ↔
      (ioErr = false ∧ findInode s iid = some i)) := by
  unfold Get
  cases ioErr <;> cases h : findInode s iid <;> simp [h]

/-- Root-only state carrying one extended attribute, stored with value
"v". -/
def c6State : State :=
  { setupState with xattrs := [⟨1, "user.k", "v"⟩] }

/-- C6 counterexample: REPLACE (flags = 2) does not update every
existing key.  The branch tests the UPDATE's `RowsAffected`
(mysql.go:830-838) and the driver counts changed rows, so replacing the
existing key "user.k" with its identical stored value "v" changes no
row: the call fails `ENODATA` although the key exists, and the
transaction rolls back. -/
theorem C6_setxattr_counterexample :
    (findXattr c6State 1 "user.k").isSome = true ∧
    SetXattr c6State 1 "user.k" "v" 2 = .error .ENODATA ∧
    setXattrS c6State 1 "user.k" "v" 2 = c6State := by
  refine ⟨rfl, rfl, rfl⟩

/-- C6 (amended): `SetXattr` semantics per flag value, for an existing
inode.  CREATE (1) inserts, failing with the store's duplicate-key
violation when the key exists (transaction rolled back, state
unchanged); REPLACE (2) updates an existing key whose stored value
differs from the new one, and fails `ENODATA` with state unchanged
when the UPDATE changes no row — the key is absent, or it is already
stored with the identical value; any other flags value upserts, after
which `GetXattr` returns the value. -/
theorem C6_setxattr_flags (s : State) (iid : Nat) (attr v : String)
    (hinode : (findInode s iid).isSome) :
    ((findXattr s iid attr).isSome →
      SetXattr s iid attr v 1 = .error .EEXIST ∧
      setXattrS s iid attr v 1 = s) ∧
    (findXattr s iid attr = none →
      ∃ s', SetXattr s iid attr v 1 = .ok s' ∧
        s'.xattrs = s.xattrs ++ [⟨iid, attr, v⟩] ∧
        GetXattr s' iid attr = .ok v) ∧
    (∀ x, findXattr s iid attr = some x → ¬ x.value = v →
      ∃ s', SetXattr s iid attr v 2 = .ok s' ∧
        GetXattr s' iid attr = .ok v) ∧
    (∀ x, findXattr s iid attr = some x → x.value = v →
      SetXattr s iid attr v 2 = .error .ENODATA ∧
      setXattrS s iid attr v 2 = s) ∧
    (findXattr s iid attr = none →
      SetXattr s iid attr v 2 = .error .ENODATA ∧
      setXattrS s iid attr v 2 = s) ∧
    (∀ flags, flags ≠ 1 → flags ≠ 2 →
      ∃ s', SetXattr s iid attr v flags = .ok s' ∧
        GetXattr s' iid attr = .ok v) := by
  have hnone : (findInode s iid).isNone = false := by
    rcases h : findInode s iid with _ | i
    · rw [h] at hinode
      cases hinode
    · rfl
  refine ⟨?_, ?_, ?_, ?_, ?_, ?_⟩
  · intro hx
    constructor
    · simp [SetXattr, hx]
    · simp [setXattrS, SetXattr, hx]
  · intro hx
    refine ⟨_, ?_, rfl, getXattr_after_ins s iid attr v hx⟩
    simp [SetXattr, hx, hnone]
  · intro x hx hne
    have hxs : (findXattr s iid attr).isSome := by rw [hx]; rfl
    have hbe : (x.value == v) = false := by simp [hne]
    refine ⟨_, ?_, getXattr_after_upd s iid attr v hxs⟩
    simp [SetXattr, hx, hbe]
  · intro x hx hveq
    have hbe : (x.value == v) = true := by simp [hveq]
    constructor
    · simp [SetXattr, hx, hbe]
    · simp [setXattrS, SetXattr, hx, hbe]
  · intro hx
    constructor
    · simp [SetXattr, hx]
    · simp [setXattrS, SetXattr, hx]
  · intro flags h1 h2
    have hb1 : (flags == 1) = false := by simp [h1]
    have hb2 : (flags == 2) = false := by simp [h2]
    rcases hx : findXattr s iid attr with _ | x0
    · refine ⟨_, ?_, getXattr_after_ins s iid attr v hx⟩
      simp [SetXattr, hb1, hb2, hx, hnone]
    · have hxs : (findXattr s iid attr).isSome := by rw [hx]; rfl
      refine ⟨_, ?_, getXattr_after_upd s iid attr v hxs⟩
      simp [SetXattr, hb1, hb2, hx]

/-- C6 witness at a concrete state with the key "user.k" stored as "v"
on the root inode: a differing REPLACE value "w" exercises the update
branches. -/
theorem C6_setxattr_flags_witness :
    ((findXattr c6State 1 "user.k").isSome →
      SetXattr c6State 1 "user.k" "w" 1 = .error .EEXIST ∧
      setXattrS c6State 1 "user.k" "w" 1 = c6State) ∧
    (findXattr c6State 1 "user.k" = none →
      ∃ s', SetXattr c6State 1 "user.k" "w" 1 = .ok s' ∧
        s'.xattrs = c6State.xattrs ++ [⟨1, "user.k", "w"⟩] ∧
        GetXattr s' 1 "user.k" = .ok "w") ∧
    (∀ x, findXattr c6State 1 "user.k" = some x → ¬ x.value = "w" →
      ∃ s', SetXattr c6State 1 "user.k" "w" 2 = .ok s' ∧
        GetXattr s' 1 "user.k" = .ok "w") ∧
    (∀ x, findXattr c6State 1 "user.k" = some x → x.value = "w" →
      SetXattr c6State 1 "user.k" "w" 2 = .error .ENODATA ∧
      setXattrS c6State 1 "user.k" "w" 2 = c6State) ∧
    (findXattr c6State 1 "user.k" = none →
      SetXattr c6State 1 "user.k" "w" 2 = .error .ENODATA ∧
      setXattrS c6State 1 "user.k" "w" 2 = c6State) ∧
    (∀ flags, flags ≠ 1 → flags ≠ 2 →
      ∃ s', SetXattr c6State 1 "user.k" "w" flags = .ok s' ∧
        GetXattr s' 1 "user.k" = .ok "w") :=
  C6_setxattr_flags c6State 1 "user.k" "w" (by decide)

/-- Concrete directory tree: under the root, "f" is a file (inode 2)
and "d" a directory (inode 3) with one child entry "c" (inode 4). -/
def c9State : State :=
  { inodes := [⟨1, 2147484159, 0, 0, 0, 1, ""⟩, ⟨2, 420, 0, 0, 0, 1, ""⟩,
               ⟨3, 2147484159, 0, 0, 0, 1, ""⟩, ⟨4, 420, 0, 0, 0, 1, ""⟩]
    entries := [⟨1, "f", 2⟩, ⟨1, "d", 3⟩, ⟨3, "c", 4⟩]
    chunks := []
    xattrs := []
    statsInodes := 4
    statsSize := 0
    nextInodeId := 5
    nextChunkId := 1 }

/-- C9: `Unlink` refuses with `ENOTEMPTY`, leaving the database
unchanged, whenever the entry's target has child entries — the rule
looks only at the child count, never at the target's type; otherwise it
deletes the directory entry and decrements the target's refcount,
leaving the target's inode row in place. -/
theorem C9_unlink_notempty (s : State) (p : Nat) (n : String) (e : Entry)
    (hfind : findEntry s p n = some e) :
    (0 < countChildren s e.inode →
      Unlink s p n = .error .ENOTEMPTY ∧ unlinkS s p n = s) ∧
    (countChildren s e.inode = 0 →
      ∀ t : Inode, findInode s e.inode = some t → 1 ≤ t.refcount →
      ∃ s', Unlink s p n = .ok s' ∧
        s'.entries = s.entries.filter
          (fun e2 => !(e2.parent == p && e2.name == n)) ∧
        findEntry s' p n = none ∧
        findInode s' e.inode = some { t with refcount := t.refcount - 1 } ∧
        s'.statsInodes = s.statsInodes ∧ s'.chunks = s.chunks) := by
  constructor
  · intro hch
    have hgt : countChildren s e.inode > 0 := hch
    constructor
    · simp [Unlink, unlink, hfind, if_pos hgt]
    · simp [unlinkS, Unlink, unlink, hfind, if_pos hgt]
  · intro hch t ht _
    have hngt : ¬ countChildren s e.inode > 0 := by omega
    have hok : Unlink s p n = .ok
        { s with
          entries := s.entries.filter
            (fun e2 => !(e2.parent == p && e2.name == n))
          inodes := s.inodes.map (fun i =>
            if i.id == e.inode then { i with refcount := i.refcount - 1 }
            else i) } := by
      simp only [Unlink, unlink, hfind]
      rw [if_neg hngt]
    refine ⟨_, hok, rfl, ?_, ?_, rfl, rfl⟩
    · rw [findEntry]
      rw [List.find?_eq_none]
      intro x hx
      have := (List.mem_filter.mp hx).2
      simp only [Bool.not_eq_true'] at this
      simp [this]
    · rw [findInode]
      dsimp only
      rw [List.find?_map]
      have hpg : ((fun i : Inode => i.id == e.inode) ∘
          (fun i : Inode =>
            if i.id == e.inode then { i with refcount := i.refcount - 1 }
            else i))
          = (fun i : Inode => i.id == e.inode) := by
        funext i
        by_cases h : (i.id == e.inode) = true <;> simp [Function.comp, h]
      rw [hpg]
      unfold findInode at ht
      rw [ht]
      have hp : t.id = e.inode := by simpa using List.find?_some ht
      simp [hp]

/-- C9 witness: a directory with one child refuses to be unlinked; an
empty entry is removed with its target's refcount decremented. -/
theorem C9_unlink_notempty_witness :
    (0 < countChildren c9State 3 →
      Unlink c9State 1 "d" = .error .ENOTEMPTY ∧
      unlinkS c9State 1 "d" = c9State) ∧
    (countChildren c9State 3 = 0 →
      ∀ t : Inode, findInode c9State 3 = some t → 1 ≤ t.refcount →
      ∃ s', Unlink c9State 1 "d" = .ok s' ∧
        s'.entries = c9State.entries.filter
          (fun e2 => !(e2.parent == 1 && e2.name == "d")) ∧
        findEntry s' 1 "d" = none ∧
        findInode s' 3 = some { t with refcount := t.refcount - 1 } ∧
        s'.statsInodes = c9State.statsInodes ∧
        s'.chunks = c9State.chunks) :=
  C9_unlink_notempty c9State 1 "d" ⟨1, "d", 3⟩ (by decide)

/-- Concrete tree for the Rename claim: `/x` is a file (inode 2), `/y` a
directory (inode 3) with one child entry, plus that child (inode 4). -/
def c3State : State :=
  { inodes := [⟨1, 2147484159, 0, 0, 0, 1, ""⟩, ⟨2, 420, 0, 0, 0, 1, ""⟩,
               ⟨3, 2147484159, 0, 0, 0, 1, ""⟩, ⟨4, 420, 0, 0, 0, 1, ""⟩]
    entries := [⟨1, "x", 2⟩, ⟨1, "y", 3⟩, ⟨3, "c", 4⟩]
    chunks := []
    xattrs := []
    statsInodes := 4
    statsSize := 0
    nextInodeId := 5
    nextChunkId := 1 }

/-- C3 counterexample: renaming over an existing non-empty directory
does **not** fail with `ENOTEMPTY`.  The preliminary destination unlink
returns `ENOTEMPTY`, but mysql.go:363 discards that return value; the
relocation UPDATE then collides with the destination's `(parent, name)`
primary key and the store's duplicate-key violation (`EEXIST` through
the spec's error table) is what the caller sees. -/
theorem C3_rename_counterexample :
    (findEntry c3State 1 "y").isSome = true ∧
    0 < countChildren c3State 3 ∧
    Rename c3State 1 "x" 1 "y" = .error .EEXIST ∧
    ¬ Rename c3State 1 "x" 1 "y" = .error .ENOTEMPTY := by
  refine ⟨rfl, by decide, rfl, ?_⟩
  intro h
  rw [show Rename c3State 1 "x" 1 "y" = .error .EEXIST from rfl] at h
  cases h

/-- Rows a successful unlink leaves behind form a subset of the original
entries, so a key absent before stays absent. -/
theorem unlink_entries_sub (s t : State) (p : Nat) (n : String)
    (h : unlink s p n = .ok t) (q : Nat) (m : String)
    (hqm : findEntry s q m = none) : findEntry t q m = none := by
  unfold unlink at h
  rcases he : findEntry s p n with _ | e
  · rw [he] at h
    cases h
  · simp only [he] at h
    by_cases hch : countChildren s e.inode > 0
    · rw [if_pos hch] at h
      cases h
    · rw [if_neg hch] at h
      injection h with h
      subst h
      unfold findEntry at hqm ⊢
      rw [List.find?_eq_none] at hqm ⊢
      intro a ha
      exact hqm a (List.mem_of_mem_filter ha)

/-- C3 (amended): when an entry exists at the destination and its target
has children, the destination unlink's `ENOTEMPTY` is discarded
(mysql.go:363) and `Rename` instead fails with the duplicate-key
violation (`EEXIST`) raised by the relocation UPDATE, leaving all state
unchanged; when no destination entry exists, the source entry is
relocated; when the source entry does not exist, `Rename` fails `ENOENT`
with all state unchanged. -/
theorem C3_rename_behavior (s : State) (oldParent : Nat)
    (oldName : String) (newParent : Nat) (newName : String) :
    (∀ d src, findEntry s newParent newName = some d →
      0 < countChildren s d.inode →
      findEntry s oldParent oldName = some src →
      ¬(oldParent = newParent ∧ oldName = newName) →
      Rename s oldParent oldName newParent newName = .error .EEXIST ∧
      renameS s oldParent oldName newParent newName = s) ∧
    (findEntry s newParent newName = none →
      ∀ src, findEntry s oldParent oldName = some src →
      Rename s oldParent oldName newParent newName
        = .ok { s with entries := s.entries.map (fun e2 =>
            if e2.parent == oldParent && e2.name == oldName then
              { e2 with parent := newParent, name := newName }
            else e2) }) ∧
    (findEntry s oldParent oldName = none →
      Rename s oldParent oldName newParent newName = .error .ENOENT ∧
      renameS s oldParent oldName newParent newName = s) := by
  refine ⟨?_, ?_, ?_⟩
  · intro d src hd hch hsrc hne
    have hul : unlink s newParent newName = .error .ENOTEMPTY := by
      simp only [unlink, hd]
      rw [if_pos hch]
    have hsp : src.parent = oldParent ∧ src.name = oldName := by
      simpa using List.find?_some hsrc
    have hdp : d.parent = newParent ∧ d.name = newName := by
      simpa using List.find?_some hd
    have hvq : (src.parent == newParent && src.name == newName) = false := by
      by_cases hq : (src.parent == newParent && src.name == newName) = true
      · exfalso
        simp only [Bool.and_eq_true, beq_iff_eq, hsp.1, hsp.2] at hq
        exact hne hq
      · exact Bool.eq_false_iff.mpr hq
    have hany : (s.entries.any (fun e2 =>
        !(e2.parent == oldParent && e2.name == oldName) &&
        e2.parent == newParent && e2.name == newName)) = true := by
      rw [List.any_eq_true]
      refine ⟨d, List.mem_of_find?_eq_some hd, ?_⟩
      have hnotold : (d.parent == oldParent && d.name == oldName) = false := by
        by_cases hq : (d.parent == oldParent && d.name == oldName) = true
        · exfalso
          simp only [Bool.and_eq_true, beq_iff_eq, hdp.1, hdp.2] at hq
          exact hne ⟨hq.1.symm, hq.2.symm⟩
        · exact Bool.eq_false_iff.mpr hq
      rw [hnotold]
      simp [hdp.1, hdp.2]
    have hre : Rename s oldParent oldName newParent newName
        = .error .EEXIST := by
      simp only [Rename, hul, renameUpdate, hsrc, hvq, hany]
      rfl
    exact ⟨hre, by simp [renameS, hre]⟩
  · intro hd src hsrc
    have hul : unlink s newParent newName = .error .ENOENT := by
      simp only [unlink, hd]
    have hnomatch := List.find?_eq_none.mp hd
    have hvq : (src.parent == newParent && src.name == newName) = false := by
      by_cases hq : (src.parent == newParent && src.name == newName) = true
      · exact absurd hq (hnomatch src (List.mem_of_find?_eq_some hsrc))
      · exact Bool.eq_false_iff.mpr hq
    have hany : (s.entries.any (fun e2 =>
        !(e2.parent == oldParent && e2.name == oldName) &&
        e2.parent == newParent && e2.name == newName)) = false := by
      rw [List.any_eq_false]
      intro x hx hpx
      apply hnomatch x hx
      simp only [Bool.and_eq_true] at hpx ⊢
      tauto
    simp only [Rename, hul, renameUpdate, hsrc, hvq, hany]
    rfl
  · intro hsrc
    cases hu : unlink s newParent newName with
    | ok t =>
      have hfk := unlink_entries_sub s t newParent newName hu
        oldParent oldName hsrc
      have hre : Rename s oldParent oldName newParent newName
          = .error .ENOENT := by
        simp only [Rename, hu, renameUpdate, hfk]
        rfl
      exact ⟨hre, by simp [renameS, hre]⟩
    | error e =>
      have hre : Rename s oldParent oldName newParent newName
          = .error .ENOENT := by
        simp only [Rename, hu, renameUpdate, hsrc]
        rfl
      exact ⟨hre, by simp [renameS, hre]⟩

/-- C3 witness: renaming `/x` over the non-empty directory `/y` fails
with the duplicate-key error and changes nothing. -/
theorem C3_rename_behavior_witness :
    Rename c3State 1 "x" 1 "y" = .error .EEXIST ∧
    renameS c3State 1 "x" 1 "y" = c3State :=
  (C3_rename_behavior c3State 1 "x" 1 "y").1 ⟨1, "y", 3⟩ ⟨1, "x", 2⟩
    (by decide) (by decide) (by decide) (by decide)

/-- Looking an inode up after an id-preserving rowwise UPDATE of the
`inodes` table finds the updated row. -/
theorem findInode_map (s : State) (iid : Nat) (i : Inode)
    (hfind : findInode s iid = some i) (f : Inode → Inode)
    (hfid : ∀ j, (f j).id = j.id) :
    List.find? (fun j => j.id == iid) (s.inodes.map f) = some (f i) := by
  rw [List.find?_map]
  have hpg : ((fun j : Inode => j.id == iid) ∘ f)
      = (fun j : Inode => j.id == iid) := by
    funext j
    simp [Function.comp, hfid j]
  rw [hpg]
  unfold findInode at hfind
  rw [hfind]
  rfl

/-- Single-chunk state of the overwrite-middle scenario: inode 2 of size
100 wholly backed by `("s3","a",0)`. -/
def c1State : State :=
  { inodes := [⟨2, 420, 0, 0, 100, 1, ""⟩]
    entries := []
    chunks := [⟨1, "s3", "a", some ⟨2, 0, 0, 100⟩⟩]
    xattrs := []
    statsInodes := 2
    statsSize := 100
    nextInodeId := 3
    nextChunkId := 2 }

/-- Expected state after `AddChunk(off=20, size=30, "s3", "b", 0)` on
`c1State`: the original row trimmed to `[0,20)`, the new chunk `[20,50)`
and the split right half `[50,100)` with object offset 50. -/
def c1Expected : State :=
  { inodes := [⟨2, 420, 0, 0, 100, 1, ""⟩]
    entries := []
    chunks := [⟨1, "s3", "a", some ⟨2, 0, 0, 20⟩⟩,
               ⟨2, "s3", "b", some ⟨2, 0, 20, 30⟩⟩,
               ⟨3, "s3", "a", some ⟨2, 50, 50, 50⟩⟩]
    xattrs := []
    statsInodes := 2
    statsSize := 100
    nextInodeId := 3
    nextChunkId := 4 }

/-- C1: a live chunk `[a, b)` strictly containing the written interval
`W = [off, off+len)` is split: the left piece `[a, off)` keeps the row's
id, storage, key and object offset; the right piece `[off+len, b)` is
inserted as a new row with object offset advanced by `off+len-a`; the
new chunk covering `W` is inserted too.  On the concrete single-chunk
state the call produces exactly the three expected live chunks. -/
theorem C1_addChunk_split :
    (∀ (s : State) (iid flags : Nat) (chunk0 : ChunkData) (i : Inode)
      (c : ChunkRow) (l : LivePart),
      findInode s iid = some i →
      flags &&& 1024 = 0 →
      chunkIdsOk s →
      c ∈ s.chunks →
      c.live = some l →
      l.inode = iid →
      l.inodeoffset < chunk0.inodeoffset →
      chunk0.inodeoffset + chunk0.size < l.inodeoffset + l.size →
      ∃ s', AddChunk s iid flags chunk0 = .ok s' ∧
        ({ c with live := some ⟨iid, l.objectoffset, l.inodeoffset,
            chunk0.inodeoffset - l.inodeoffset⟩ } : ChunkRow)
          ∈ s'.chunks ∧
        (∃ rid, (⟨rid, c.storage, c.key, some ⟨iid,
            l.objectoffset +
              (chunk0.inodeoffset + chunk0.size - l.inodeoffset),
            chunk0.inodeoffset + chunk0.size,
            l.inodeoffset + l.size -
              (chunk0.inodeoffset + chunk0.size)⟩⟩ : ChunkRow)
          ∈ s'.chunks) ∧
        (∃ nid, (⟨nid, chunk0.storage, chunk0.key, some ⟨iid,
            chunk0.objectoffset, chunk0.inodeoffset, chunk0.size⟩⟩ :
            ChunkRow) ∈ s'.chunks)) ∧
    AddChunk c1State 2 0 ⟨"s3", "b", 0, 20, 30⟩ = .ok c1Expected := by
  constructor
  · intro s iid flags chunk0 i c l hfind hflags hids hc hlive hinode ha hb
    have happ : (flags &&& 1024 != 0) = false := by simp [hflags]
    rw [AddChunk_ok s iid flags chunk0 i hfind]
    rw [happ]
    simp only [Bool.false_eq_true, if_false]
    rw [addChunkBody_eq s iid i chunk0 hids]
    have hc1 : c ∈ (if i.size < chunk0.inodeoffset then
        insertChunk s iid
          ⟨"zero", "", 0, i.size, chunk0.inodeoffset - i.size⟩
      else s).chunks := by
      by_cases hgap : i.size < chunk0.inodeoffset
      · rw [if_pos hgap]
        simp only [insertChunk]
        exact List.mem_append_left _ hc
      · rw [if_neg hgap]
        exact hc
    have hA : l.inodeoffset < chunk0.inodeoffset + chunk0.size := by
      omega
    have hB : chunk0.inodeoffset < l.inodeoffset + l.size := by omega
    have hsel : spliceSel iid chunk0.inodeoffset chunk0.size c
        = some l := by
      simp [spliceSel, hlive, hinode, hA, hB]
    have hncov : chunkCovered chunk0.inodeoffset chunk0.size l
        = false := by
      unfold chunkCovered
      have hno : ¬ chunk0.inodeoffset ≤ l.inodeoffset := by omega
      simp [hno]
    have hstrict : chunkStrictlyContains chunk0.inodeoffset chunk0.size l
        = true := by
      unfold chunkStrictlyContains
      simp [ha, hb]
    refine ⟨_, rfl, ?_, ?_, ?_⟩ <;> simp only [spliceResult1]
    · -- left piece: the row updated in place
      apply List.mem_append_left
      refine List.mem_map.mpr ⟨c, hc1, ?_⟩
      simp only [spliceStepRow, hsel, hncov, Bool.false_eq_true, if_false]
      simp [spliceTrim, ha]
    · -- right piece: inserted among the new rows
      have hdmem : spliceRight chunk0.inodeoffset chunk0.size c l
          ∈ spliceRights iid chunk0.inodeoffset chunk0.size
            (if i.size < chunk0.inodeoffset then
              insertChunk s iid
                ⟨"zero", "", 0, i.size, chunk0.inodeoffset - i.size⟩
            else s).chunks := by
        apply List.mem_filterMap.mpr
        exact ⟨c, hc1, by simp [hsel, hncov, hstrict]⟩
      rcases mem_rowsFrom iid _ _ _
        (List.mem_cons_of_mem chunk0 hdmem) with ⟨k, hk⟩
      exact ⟨k, List.mem_append_right _ hk⟩
    · -- the new chunk itself
      rcases mem_rowsFrom iid _ _ chunk0 (List.mem_cons_self _ _) with
        ⟨k, hk⟩
      exact ⟨k, List.mem_append_right _ hk⟩
  · rfl

/-- C1 witness: the overwrite-middle split applied to the concrete
single-chunk state. -/
theorem C1_addChunk_split_witness :
    ∃ s', AddChunk c1State 2 0 ⟨"s3", "b", 0, 20, 30⟩ = .ok s' ∧
      (⟨1, "s3", "a", some ⟨2, 0, 0, 20⟩⟩ : ChunkRow) ∈ s'.chunks ∧
      (∃ rid, (⟨rid, "s3", "a", some ⟨2, 50, 50, 50⟩⟩ : ChunkRow)
        ∈ s'.chunks) ∧
      (∃ nid, (⟨nid, "s3", "b", some ⟨2, 0, 20, 30⟩⟩ : ChunkRow)
        ∈ s'.chunks) :=
  C1_addChunk_split.1 c1State 2 0 ⟨"s3", "b", 0, 20, 30⟩
    ⟨2, 420, 0, 0, 100, 1, ""⟩ ⟨1, "s3", "a", some ⟨2, 0, 0, 100⟩⟩
    ⟨2, 0, 0, 100⟩ rfl rfl (by decide) (by decide) rfl rfl
    (by decide) (by decide)

/-- Fresh empty inode of the sparse-write scenario: inode 2 of size 0
with no chunks. -/
def c5State : State :=
  { inodes := [⟨2, 420, 0, 0, 0, 1, ""⟩]
    entries := []
    chunks := []
    xattrs := []
    statsInodes := 2
    statsSize := 0
    nextInodeId := 3
    nextChunkId := 1 }

/-- Expected state after `AddChunk(off=100, size=50, "s3", "a", 0)` on
the fresh inode: a zero-fill chunk `[0,100)` and the data chunk
`[100,150)`, inode size 150. -/
def c5Expected : State :=
  { inodes := [⟨2, 420, 0, 0, 150, 1, ""⟩]
    entries := []
    chunks := [⟨1, "zero", "", some ⟨2, 0, 0, 100⟩⟩,
               ⟨2, "s3", "a", some ⟨2, 0, 100, 50⟩⟩]
    xattrs := []
    statsInodes := 2
    statsSize := 150
    nextInodeId := 3
    nextChunkId := 3 }

/-- C5: a non-append `AddChunk` whose offset lies beyond the inode's
size inserts a zero-fill chunk covering `[inode.size, off)` (storage
"zero", empty key, object offset 0) and leaves the inode with size
`off + len`; on a fresh inode of size 0 the concrete call produces
exactly the two expected live chunks and size 150. -/
theorem C5_addChunk_sparse_gap :
    (∀ (s : State) (iid flags : Nat) (chunk0 : ChunkData) (i : Inode),
      findInode s iid = some i →
      flags &&& 1024 = 0 →
      chunkIdsOk s →
      i.size < chunk0.inodeoffset →
      ∃ s', AddChunk s iid flags chunk0 = .ok s' ∧
        (⟨s.nextChunkId, "zero", "",
          some ⟨iid, 0, i.size, chunk0.inodeoffset - i.size⟩⟩ : ChunkRow)
          ∈ s'.chunks ∧
        findInode s' iid
          = some { i with size := chunk0.inodeoffset + chunk0.size }) ∧
    AddChunk c5State 2 0 ⟨"s3", "a", 0, 100, 50⟩ = .ok c5Expected := by
  constructor
  · intro s iid flags chunk0 i hfind hflags hids hgap
    have happ : (flags &&& 1024 != 0) = false := by simp [hflags]
    rw [AddChunk_ok s iid flags chunk0 i hfind]
    rw [happ]
    simp only [Bool.false_eq_true, if_false]
    rw [addChunkBody_eq s iid i chunk0 hids]
    refine ⟨_, rfl, ?_, ?_⟩ <;>
      simp only [spliceResult1, if_pos hgap]
    · -- the zero-fill row survives the splice loop untouched
      apply List.mem_append_left
      refine List.mem_map.mpr ⟨⟨s.nextChunkId, "zero", "",
        some ⟨iid, 0, i.size, chunk0.inodeoffset - i.size⟩⟩, ?_, ?_⟩
      · simp only [insertChunk]
        exact List.mem_append_right _ (List.mem_cons_self _ _)
      · have hnosel : spliceSel iid chunk0.inodeoffset chunk0.size
            (⟨s.nextChunkId, "zero", "",
              some ⟨iid, 0, i.size, chunk0.inodeoffset - i.size⟩⟩ :
              ChunkRow) = none := by
          unfold spliceSel
          have hnoB : ¬ chunk0.inodeoffset <
              i.size + (chunk0.inodeoffset - i.size) := by omega
          simp [hnoB]
        simp [spliceStepRow, hnosel]
    · -- the inode row now carries size off + len
      unfold findInode
      dsimp only [insertChunk]
      rw [findInode_map s iid i hfind _ (fun j => by
        by_cases h : j.id = i.id <;> simp [h])]
      have hmax : Nat.max i.size (chunk0.inodeoffset + chunk0.size)
          = chunk0.inodeoffset + chunk0.size := by
        have hle : i.size ≤ chunk0.inodeoffset + chunk0.size := by omega
        exact Nat.max_eq_right hle
      have hii : (i.id == i.id) = true := by simp
      simp [hii, hmax]
  · rfl

/-- C5 witness: the sparse write on the concrete fresh inode. -/
theorem C5_addChunk_sparse_gap_witness :
    ∃ s', AddChunk c5State 2 0 ⟨"s3", "a", 0, 100, 50⟩ = .ok s' ∧
      (⟨1, "zero", "", some ⟨2, 0, 0, 100⟩⟩ : ChunkRow) ∈ s'.chunks ∧
      findInode s' 2 = some ⟨2, 420, 0, 0, 150, 1, ""⟩ :=
  C5_addChunk_sparse_gap.1 c5State 2 0 ⟨"s3", "a", 0, 100, 50⟩
    ⟨2, 420, 0, 0, 0, 1, ""⟩ rfl rfl (by decide) (by decide)

/-- C10: an `AddChunk` carrying the append bit writes exactly the
interval `[oldSize, oldSize+len)`: no sparse-gap zero-fill is inserted,
no pre-existing chunk satisfying the containment invariant is trimmed,
split or orphaned (the chunk table is simply extended by the one new
row), and the inode's size becomes `oldSize + len`. -/
theorem C10_addChunk_append (s : State) (iid flags : Nat)
    (chunk0 : ChunkData) (i : Inode)
    (hfind : findInode s iid = some i)
    (happ : flags &&& 1024 ≠ 0)
    (hwithin : ChunksWithin iid i.size s.chunks) :
    AddChunk s iid flags chunk0 = .ok { s with
      chunks := s.chunks ++ [⟨s.nextChunkId, chunk0.storage, chunk0.key,
        some ⟨iid, chunk0.objectoffset, i.size, chunk0.size⟩⟩]
      nextChunkId := s.nextChunkId + 1
      statsSize := s.statsSize + chunk0.size
      inodes := s.inodes.map (fun j =>
        if j.id == i.id then { j with size := i.size + chunk0.size }
        else j) } := by
  rw [AddChunk_ok s iid flags chunk0 i hfind]
  have happB : (flags &&& 1024 != 0) = true := by simpa using happ
  rw [happB]
  simp only [if_true]
  unfold addChunkBody
  dsimp only
  rw [if_neg (Nat.lt_irrefl i.size)]
  unfold splicePipeline
  dsimp only
  have hall : ∀ c ∈ s.chunks,
      spliceSel iid i.size chunk0.size c = none := by
    intro c hc
    unfold spliceSel
    rcases hl : c.live with _ | l
    · rfl
    · have hw := hwithin c hc
      unfold rowWithin at hw
      rw [hl] at hw
      by_cases hi : l.inode = iid
      · have hend := hw hi
        have hnoB : ¬ i.size < l.inodeoffset + l.size := by omega
        simp [hnoB]
      · have hne : (l.inode == iid) = false := by simp [hi]
        simp [hne]
  have h1 : s.chunks.filterMap (fun c =>
      (spliceSel iid i.size chunk0.size c).bind (fun l =>
        if chunkCovered i.size chunk0.size l then some c.id else none))
      = [] :=
    List.filterMap_eq_nil_iff.mpr (fun c hc => by rw [hall c hc]; rfl)
  have h2 : s.chunks.filterMap (fun c =>
      (spliceSel iid i.size chunk0.size c).bind (fun l =>
        if chunkCovered i.size chunk0.size l then none
        else some (c.id, spliceTrim iid i.size chunk0.size l)))
      = [] :=
    List.filterMap_eq_nil_iff.mpr (fun c hc => by rw [hall c hc]; rfl)
  have h3 : s.chunks.filterMap (fun c =>
      (spliceSel iid i.size chunk0.size c).bind (fun l =>
        if !chunkCovered i.size chunk0.size l &&
            chunkStrictlyContains i.size chunk0.size l
        then some (spliceRight i.size chunk0.size c l)
        else none))
      = [] :=
    List.filterMap_eq_nil_iff.mpr (fun c hc => by rw [hall c hc]; rfl)
  rw [h1, h2, h3]
  rw [statsAdd_if]
  have hmax : Nat.max i.size (i.size + chunk0.size)
      = i.size + chunk0.size := Nat.max_eq_right (Nat.le_add_right _ _)
  rw [hmax]
  have hsub : i.size + chunk0.size - i.size = chunk0.size := by omega
  rw [hsub]
  rfl

/-- C10 witness: appending 30 bytes to the 100-byte inode of the
overwrite-middle state leaves its chunk untouched and extends the
size. -/
theorem C10_addChunk_append_witness :
    AddChunk c1State 2 1024 ⟨"s3", "z", 0, 0, 30⟩ = .ok { c1State with
      chunks := c1State.chunks ++ [⟨2, "s3", "z",
        some ⟨2, 0, 100, 30⟩⟩]
      nextChunkId := 3
      statsSize := 130
      inodes := c1State.inodes.map (fun j =>
        if j.id == 2 then { j with size := 130 } else j) } :=
  C10_addChunk_append c1State 2 1024 ⟨"s3", "z", 0, 0, 30⟩
    ⟨2, 420, 0, 0, 100, 1, ""⟩ rfl (by decide) (by decide)

/-- Inversion of the Touch shrink scan: a scanned row is live, belongs
to the inode and reaches past the new size. -/
theorem touchSel_some_inv (iid sz' : Nat) (c : ChunkRow) (l : LivePart)
    (h : touchSel iid sz' c = some l) :
    c.live = some l ∧ l.inode = iid ∧ sz' < l.inodeoffset + l.size := by
  unfold touchSel at h
  rcases hl : c.live with _ | l0
  · rw [hl] at h
    cases h
  · simp only [hl] at h
    by_cases hcond : (l0.inode == iid &&
        decide (sz' < l0.inodeoffset + l0.size)) = true
    · rw [if_pos hcond] at h
      injection h with h
      subst h
      simp only [Bool.and_eq_true, beq_iff_eq, decide_eq_true_eq] at hcond
      exact ⟨rfl, hcond.1, hcond.2⟩
    · rw [if_neg hcond] at h
      cases h

/-- Two-chunk state of the truncate-down scenario: inode 2 of size 100
backed by `[0,50)` from "a" and `[50,100)` from "b". -/
def c4State : State :=
  { inodes := [⟨2, 420, 0, 0, 100, 1, ""⟩]
    entries := []
    chunks := [⟨1, "s3", "a", some ⟨2, 0, 0, 50⟩⟩,
               ⟨2, "s3", "b", some ⟨2, 0, 50, 50⟩⟩]
    xattrs := []
    statsInodes := 2
    statsSize := 100
    nextInodeId := 3
    nextChunkId := 3 }

/-- Expected state after `Touch(size=60)` on `c4State`: the first chunk
unchanged, the second shrunk to `[50,60)`, stats.size down by 40. -/
def c4Expected : State :=
  { inodes := [⟨2, 420, 0, 0, 60, 1, ""⟩]
    entries := []
    chunks := [⟨1, "s3", "a", some ⟨2, 0, 0, 50⟩⟩,
               ⟨2, "s3", "b", some ⟨2, 0, 50, 10⟩⟩]
    xattrs := []
    statsInodes := 2
    statsSize := 60
    nextInodeId := 3
    nextChunkId := 3 }

/-- C4: a shrinking `Touch(size = sz')` orphans every live chunk of the
inode starting at or past `sz'`, end-trims every live chunk straddling
`sz'` to `size = sz' - inode_offset` (object offset untouched),
decreases `stats.size` by the size delta, and afterwards no live chunk
of the inode reaches past `sz'`; on the concrete two-chunk state,
`Touch(size=60)` leaves the first chunk unchanged, shrinks the second to
`[50,60)` and decreases `stats.size` by 40. -/
theorem C4_touch_shrink :
    (∀ (s : State) (iid : Nat) (i0 : Inode) (sz' : Nat)
      (mode? uid? gid? : Option Nat),
      findInode s iid = some i0 →
      sz' < i0.size →
      chunkIdsOk s →
      ChunksPos iid s.chunks →
      i0.size - sz' ≤ s.statsSize →
      ∃ ret s', Touch s iid (some sz') mode? uid? gid? = .ok (ret, s') ∧
        (∀ c ∈ s.chunks, ∀ l, c.live = some l → l.inode = iid →
          sz' ≤ l.inodeoffset →
          ({ c with live := none } : ChunkRow) ∈ s'.chunks) ∧
        (∀ c ∈ s.chunks, ∀ l, c.live = some l → l.inode = iid →
          l.inodeoffset < sz' → sz' < l.inodeoffset + l.size →
          ({ c with live := some { l with size := sz' - l.inodeoffset } } :
            ChunkRow) ∈ s'.chunks) ∧
        s'.statsSize + (i0.size - sz') = s.statsSize ∧
        (∀ c ∈ s'.chunks, ∀ l, c.live = some l → l.inode = iid →
          l.inodeoffset + l.size ≤ sz')) ∧
    Touch c4State 2 (some 60) none none none
      = .ok (⟨2, 420, 0, 0, 60, 1, ""⟩, c4Expected) := by
  constructor
  · intro s iid i0 sz' mode? uid? gid? hfind hlt hids hpos hstats
    rw [Touch_ok s iid (some sz') mode? uid? gid? i0 hfind,
      touchBody_eq_shrink s iid i0 sz' mode? uid? gid? hlt hids]
    refine ⟨_, _, rfl, ?_, ?_, ?_, ?_⟩
    · -- chunks past the new size are orphaned
      intro c hc l hl hi hoff
      refine List.mem_map.mpr ⟨c, hc, ?_⟩
      have hp := hpos c hc
      unfold rowPos at hp
      rw [hl] at hp
      have hsz : 0 < l.size := hp hi
      have hreach : sz' < l.inodeoffset + l.size := by omega
      have hsel : touchSel iid sz' c = some l := by
        simp [touchSel, hl, hi, hreach]
      have hnoff : ¬ l.inodeoffset < sz' := by omega
      simp [touchStepRow, hsel, hnoff]
    · -- straddling chunks are end-trimmed
      intro c hc l hl hi hoff hreach
      refine List.mem_map.mpr ⟨c, hc, ?_⟩
      have hsel : touchSel iid sz' c = some l := by
        simp [touchSel, hl, hi, hreach]
      simp [touchStepRow, hsel, hoff, hl]
    · -- stats.size decreased by exactly the delta
      dsimp only
      omega
    · -- no live chunk reaches past sz' afterwards
      intro c' hc' l hl hi
      rcases List.mem_map.mp hc' with ⟨c, hc, rfl⟩
      rcases hsel : touchSel iid sz' c with _ | l0
      · -- not scanned: already ends at or before sz'
        simp only [touchStepRow, hsel] at hl
        have hsel' := hsel
        unfold touchSel at hsel'
        simp only [hl] at hsel'
        by_cases hcond : (l.inode == iid &&
            decide (sz' < l.inodeoffset + l.size)) = true
        · rw [if_pos hcond] at hsel'
          cases hsel'
        · simp only [Bool.and_eq_true, beq_iff_eq,
            decide_eq_true_eq, not_and] at hcond
          have hend := hcond hi
          omega
      · rcases touchSel_some_inv iid sz' c l0 hsel with ⟨hl0, _, _⟩
        simp only [touchStepRow, hsel] at hl
        by_cases hoff : l0.inodeoffset < sz'
        · rw [if_pos hoff] at hl
          simp only [hl0, Option.map_some'] at hl
          have hleq : l = { l0 with size := sz' - l0.inodeoffset } := by
            have := hl
            simp only at this
            injection this with h
            exact h.symm
          subst hleq
          simp only
          omega
        · rw [if_neg hoff] at hl
          simp only at hl
          cases hl
  · rfl

/-- C4 witness: the truncate-down scenario instantiated. -/
theorem C4_touch_shrink_witness :
    ∃ ret s', Touch c4State 2 (some 60) none none none
        = .ok (ret, s') ∧
      (∀ c ∈ c4State.chunks, ∀ l, c.live = some l → l.inode = 2 →
        60 ≤ l.inodeoffset →
        ({ c with live := none } : ChunkRow) ∈ s'.chunks) ∧
      (∀ c ∈ c4State.chunks, ∀ l, c.live = some l → l.inode = 2 →
        l.inodeoffset < 60 → 60 < l.inodeoffset + l.size →
        ({ c with live := some { l with size := 60 - l.inodeoffset } } :
          ChunkRow) ∈ s'.chunks) ∧
      s'.statsSize + (100 - 60) = c4State.statsSize ∧
      (∀ c ∈ s'.chunks, ∀ l, c.live = some l → l.inode = 2 →
        l.inodeoffset + l.size ≤ 60) :=
  C4_touch_shrink.1 c4State 2 ⟨2, 420, 0, 0, 100, 1, ""⟩ 60
    none none none rfl (by decide) (by decide) (by decide) (by decide)

/-! ## Elementwise view of chunk intervals, toward the non-overlap
invariant -/

/-- Point `x` lies in the interval row `c` maps for inode `j`. -/
def rowMem (j x : Nat) (c : ChunkRow) : Prop :=
  memIvO x (liveIv j c)

theorem rowMem_iff (j x : Nat) (c : ChunkRow) :
    rowMem j x c ↔ ∃ l, c.live = some l ∧ l.inode = j ∧
      l.inodeoffset ≤ x ∧ x < l.inodeoffset + l.size := by
  unfold rowMem memIvO liveIv
  rcases hl : c.live with _ | l
  · simp
  · by_cases hi : (l.inode == j) = true
    · have hij : l.inode = j := by simpa using hi
      simp [hi, hij]
    · have hij : ¬ l.inode = j := by simpa using hi
      simp [hi, hij]

theorem rowsDisjoint_of_mem (j : Nat) (c1 c2 : ChunkRow)
    (h : ∀ x, rowMem j x c1 → rowMem j x c2 → False) :
    rowsDisjoint j c1 c2 := by
  unfold rowsDisjoint
  unfold rowMem memIvO at h
  rcases h1 : liveIv j c1 with _ | p
  · rcases liveIv j c2 with _ | q <;> trivial
  · rcases h2 : liveIv j c2 with _ | q
    · trivial
    · rw [h1, h2] at h
      unfold ivDisjoint
      by_contra hc
      push_neg at hc
      rcases Nat.le_total p.1 q.1 with hle | hle
      · exact h q.1 (by omega) (by omega)
      · exact h p.1 (by omega) (by omega)

theorem rowsDisjoint_mem_elim (j : Nat) (c1 c2 : ChunkRow)
    (h : rowsDisjoint j c1 c2) (x : Nat)
    (h1 : rowMem j x c1) (h2 : rowMem j x c2) : False := by
  unfold rowsDisjoint at h
  unfold rowMem memIvO at h1 h2
  rcases hl1 : liveIv j c1 with _ | p
  · rw [hl1] at h1
    exact h1
  · rcases hl2 : liveIv j c2 with _ | q
    · rw [hl2] at h2
      exact h2
    · rw [hl1] at h1
      rw [hl2] at h2
      rw [hl1, hl2] at h
      unfold ivDisjoint at h
      omega

theorem rowsDisjoint_symm (j : Nat) : Symmetric (rowsDisjoint j) := by
  intro a b h
  apply rowsDisjoint_of_mem
  intro x hx1 hx2
  exact rowsDisjoint_mem_elim j a b h x hx2 hx1

/-- Inversion of the splice overlap scan. -/
theorem spliceSel_some_inv (iid off len : Nat) (c : ChunkRow)
    (l : LivePart) (h : spliceSel iid off len c = some l) :
    c.live = some l ∧ l.inode = iid ∧ l.inodeoffset < off + len ∧
      off < l.inodeoffset + l.size := by
  unfold spliceSel at h
  rcases hl : c.live with _ | l0
  · rw [hl] at h
    cases h
  · simp only [hl] at h
    by_cases hcond : (l0.inode == iid &&
        decide (l0.inodeoffset < off + len) &&
          decide (off < l0.inodeoffset + l0.size)) = true
    · rw [if_pos hcond] at h
      injection h with h
      subst h
      simp only [Bool.and_eq_true, beq_iff_eq, decide_eq_true_eq] at hcond
      exact ⟨rfl, hcond.1.1, hcond.1.2, hcond.2⟩
    · rw [if_neg hcond] at h
      cases h

/-- A row the splice scan skips either is not a live chunk of the inode
or does not intersect the written interval. -/
theorem spliceSel_none_inv (iid off len : Nat) (c : ChunkRow)
    (h : spliceSel iid off len c = none) (l : LivePart)
    (hl : c.live = some l) (hi : l.inode = iid) :
    ¬(l.inodeoffset < off + len ∧ off < l.inodeoffset + l.size) := by
  unfold spliceSel at h
  simp only [hl] at h
  intro hboth
  have hcond : (l.inode == iid &&
      decide (l.inodeoffset < off + len) &&
        decide (off < l.inodeoffset + l.size)) = true := by
    simp [hi, hboth.1, hboth.2]
  rw [if_pos hcond] at h
  cases h

theorem rowMem_live_some (j x : Nat) (c : ChunkRow) (t : LivePart)
    (hc : c.live = some t) :
    rowMem j x c ↔ (t.inode = j ∧ t.inodeoffset ≤ x ∧
      x < t.inodeoffset + t.size) := by
  rw [rowMem_iff]
  constructor
  · rintro ⟨l', hl', h⟩
    rw [hc] at hl'
    injection hl' with hl'
    subst hl'
    exact h
  · intro h
    exact ⟨t, hc, h⟩

theorem chunkCovered_false (off len : Nat) (l : LivePart)
    (h : chunkCovered off len l = false) :
    ¬(off ≤ l.inodeoffset ∧ l.inodeoffset + l.size ≤ off + len) := by
  intro hp
  have ht : chunkCovered off len l = true := by
    simp [chunkCovered, hp.1, hp.2]
  rw [ht] at h
  cases h

theorem chunkStrictlyContains_true (off len : Nat) (l : LivePart)
    (h : chunkStrictlyContains off len l = true) :
    l.inodeoffset < off ∧ off + len < l.inodeoffset + l.size := by
  simpa [chunkStrictlyContains] using h

/-- Field view of the in-place trim. -/
theorem spliceTrim_iv (iid off len : Nat) (l : LivePart) :
    (spliceTrim iid off len l).inode = iid ∧
    ((l.inodeoffset < off ∧
        (spliceTrim iid off len l).inodeoffset = l.inodeoffset ∧
        (spliceTrim iid off len l).size = off - l.inodeoffset) ∨
      (¬ l.inodeoffset < off ∧
        (spliceTrim iid off len l).inodeoffset = off + len ∧
        (spliceTrim iid off len l).size =
          l.inodeoffset + l.size - (off + len))) := by
  unfold spliceTrim
  by_cases hlo : l.inodeoffset < off
  · simp [hlo]
  · simp [hlo]

/-- The splice pass only ever shrinks the interval a surviving row maps:
every point of the stepped row's interval was in the original row's. -/
theorem spliceStepRow_mem_sub (iid off len j x : Nat) (c : ChunkRow)
    (h : rowMem j x (spliceStepRow iid off len c)) : rowMem j x c := by
  unfold spliceStepRow at h
  cases hsel : spliceSel iid off len c with
  | none =>
    rw [hsel] at h
    exact h
  | some l =>
    simp only [hsel] at h
    obtain ⟨hl, hi, hlt1, hlt2⟩ := spliceSel_some_inv iid off len c l hsel
    by_cases hcov : chunkCovered off len l = true
    · rw [if_pos hcov] at h
      rw [rowMem_iff] at h
      obtain ⟨l', hl', _⟩ := h
      cases hl'
    · rw [if_neg hcov] at h
      obtain ⟨hj, hx1, hx2⟩ := (rowMem_live_some j x
        { c with live := some (spliceTrim iid off len l) }
        (spliceTrim iid off len l) rfl).mp h
      obtain ⟨hti, hcase⟩ := spliceTrim_iv iid off len l
      have hij : l.inode = j := by
        rw [hi, ← hti]
        exact hj
      have hcov' := chunkCovered_false off len l
        (Bool.eq_false_iff.mpr hcov)
      rw [rowMem_live_some j x c l hl]
      rcases hcase with ⟨hlo, ho, hs⟩ | ⟨hlo, ho, hs⟩ <;>
        simp only [ho, hs] at hx1 hx2 <;>
        exact ⟨hij, by omega, by omega⟩

/-- No surviving stepped row maps a point of the written interval. -/
theorem spliceStepRow_mem_avoid (iid off len x : Nat) (c : ChunkRow)
    (h : rowMem iid x (spliceStepRow iid off len c)) :
    ¬(off ≤ x ∧ x < off + len) := by
  intro hw
  unfold spliceStepRow at h
  cases hsel : spliceSel iid off len c with
  | none =>
    rw [hsel] at h
    rw [rowMem_iff] at h
    obtain ⟨l, hl, hi, hx1, hx2⟩ := h
    exact spliceSel_none_inv iid off len c hsel l hl hi
      ⟨by omega, by omega⟩
  | some l =>
    simp only [hsel] at h
    by_cases hcov : chunkCovered off len l = true
    · rw [if_pos hcov] at h
      rw [rowMem_iff] at h
      obtain ⟨l', hl', _⟩ := h
      cases hl'
    · rw [if_neg hcov] at h
      obtain ⟨hj, hx1, hx2⟩ := (rowMem_live_some iid x
        { c with live := some (spliceTrim iid off len l) }
        (spliceTrim iid off len l) rfl).mp h
      obtain ⟨hl, hi, hlt1, hlt2⟩ := spliceSel_some_inv iid off len c l hsel
      obtain ⟨hti, hcase⟩ := spliceTrim_iv iid off len l
      rcases hcase with ⟨hlo, ho, hs⟩ | ⟨hlo, ho, hs⟩ <;>
        simp only [ho, hs] at hx1 hx2 <;> omega

/-- Shape of the rows a chunk INSERT run produces. -/
theorem rowsFrom_mem_inv (iid n : Nat) (ds : List ChunkData)
    (r : ChunkRow) (hr : r ∈ rowsFrom iid n ds) :
    ∃ k d, d ∈ ds ∧ r = ⟨k, d.storage, d.key,
      some ⟨iid, d.objectoffset, d.inodeoffset, d.size⟩⟩ := by
  induction ds generalizing n with
  | nil => cases hr
  | cons d ds ih =>
    rcases hr with _ | ⟨_, hr⟩
    · exact ⟨n, d, List.mem_cons_self d ds, rfl⟩
    · obtain ⟨k, d', hd', heq⟩ := ih (n + 1) hr
      exact ⟨k, d', List.mem_cons_of_mem d hd', heq⟩

/-- Inversion of the right-half selector of the splice loop, on one
row. -/
theorem spliceRightSel_some_inv (iid off len : Nat) (c : ChunkRow)
    (d : ChunkData)
    (h : ((spliceSel iid off len c).bind (fun l =>
      if !chunkCovered off len l && chunkStrictlyContains off len l
      then some (spliceRight off len c l) else none)) = some d) :
    ∃ l, spliceSel iid off len c = some l ∧
      chunkCovered off len l = false ∧
      chunkStrictlyContains off len l = true ∧
      d = spliceRight off len c l := by
  cases hsel : spliceSel iid off len c with
  | none =>
    rw [hsel] at h
    cases h
  | some l =>
    rw [hsel] at h
    replace h : (if !chunkCovered off len l &&
        chunkStrictlyContains off len l
        then some (spliceRight off len c l) else none) = some d := h
    by_cases hcond : (!chunkCovered off len l &&
        chunkStrictlyContains off len l) = true
    · rw [if_pos hcond] at h
      injection h with h
      simp only [Bool.and_eq_true, Bool.not_eq_true'] at hcond
      exact ⟨l, rfl, hcond.1, hcond.2, h.symm⟩
    · rw [if_neg hcond] at h
      cases h

theorem spliceRights_mem_inv (iid off len : Nat) (cs : List ChunkRow)
    (d : ChunkData) (hd : d ∈ spliceRights iid off len cs) :
    ∃ c l, c ∈ cs ∧ spliceSel iid off len c = some l ∧
      chunkCovered off len l = false ∧
      chunkStrictlyContains off len l = true ∧
      d = spliceRight off len c l := by
  unfold spliceRights at hd
  obtain ⟨c, hc, hfc⟩ := List.mem_filterMap.mp hd
  obtain ⟨l, hsel, hcov, hstr, heq⟩ :=
    spliceRightSel_some_inv iid off len c d hfc
  exact ⟨c, l, hc, hsel, hcov, hstr, heq⟩

/-- Pairwise relations transport through `filterMap`. -/
theorem pairwise_filterMap_of {α β : Type} {R : α → α → Prop}
    {S : β → β → Prop} (f : α → Option β)
    (H : ∀ a b, R a b → ∀ x, f a = some x → ∀ y, f b = some y → S x y)
    (l : List α) (hl : l.Pairwise R) :
    (l.filterMap f).Pairwise S := by
  induction hl with
  | nil => simp
  | @cons a tl hhead htail ih =>
    rw [List.filterMap_cons]
    cases hfa : f a with
    | none => exact ih
    | some b =>
      rw [List.pairwise_cons]
      refine ⟨?_, ih⟩
      intro y hy
      obtain ⟨c, hc, hfc⟩ := List.mem_filterMap.mp hy
      exact H a c (hhead c hc) b hfa y hfc

/-- Pairwise relations transport through the row building of a chunk
INSERT run. -/
theorem pairwise_rowsFrom {Q : ChunkData → ChunkData → Prop}
    {S : ChunkRow → ChunkRow → Prop} (iid : Nat)
    (H : ∀ (k k' : Nat) (d d' : ChunkData), Q d d' →
      S ⟨k, d.storage, d.key,
          some ⟨iid, d.objectoffset, d.inodeoffset, d.size⟩⟩
        ⟨k', d'.storage, d'.key,
          some ⟨iid, d'.objectoffset, d'.inodeoffset, d'.size⟩⟩)
    (ds : List ChunkData) (hq : ds.Pairwise Q) :
    ∀ n, (rowsFrom iid n ds).Pairwise S := by
  induction hq with
  | nil =>
    intro n
    exact List.Pairwise.nil
  | @cons d ds hhead htail ih =>
    intro n
    refine List.Pairwise.cons ?_ (ih (n + 1))
    intro r hr
    obtain ⟨k, d', hd', heq⟩ := rowsFrom_mem_inv iid (n + 1) ds r hr
    subst heq
    exact H n k d d' (hhead d' hd')

/-- Appending one row that maps only bytes at or past `sz` to a table
whose live chunks of inode `iid` stay within `[0, sz)` keeps pairwise
disjointness for every inode. -/
theorem chunksDisjoint_append_beyond (j iid sz : Nat)
    (cs : List ChunkRow) (r : ChunkRow)
    (hdisj : ChunksDisjoint j cs)
    (hwithin : ChunksWithin iid sz cs)
    (hr : ∀ x, rowMem j x r → j = iid ∧ sz ≤ x) :
    ChunksDisjoint j (cs ++ [r]) := by
  unfold ChunksDisjoint
  rw [List.pairwise_append]
  refine ⟨hdisj, by simp, ?_⟩
  intro a ha b hb
  have hb' : b = r := by simpa using hb
  subst hb'
  apply rowsDisjoint_of_mem
  intro x hxa hxr
  obtain ⟨hji, hsx⟩ := hr x hxr
  subst hji
  rw [rowMem_iff] at hxa
  obtain ⟨l, hl, hi, hx1, hx2⟩ := hxa
  have hw := hwithin a ha
  unfold rowWithin at hw
  simp only [hl] at hw
  have := hw hi
  omega

/-- Core of the amended non-overlap preservation: the splice pass output
— old rows stepped, then the new chunk and the split right halves
appended — is pairwise disjoint for every inode whenever the input table
was. -/
theorem splice_chunks_disjoint (iid j n : Nat) (ch : ChunkData)
    (cs : List ChunkRow) (hdisj : ChunksDisjoint j cs) :
    ChunksDisjoint j
      (cs.map (spliceStepRow iid ch.inodeoffset ch.size)
        ++ rowsFrom iid n
          (ch :: spliceRights iid ch.inodeoffset ch.size cs)) := by
  unfold ChunksDisjoint at hdisj ⊢
  rw [List.pairwise_append]
  refine ⟨?_, ?_, ?_⟩
  · rw [List.pairwise_map]
    refine List.Pairwise.imp ?_ hdisj
    intro a b hab
    apply rowsDisjoint_of_mem
    intro x hx1 hx2
    exact rowsDisjoint_mem_elim j a b hab x
      (spliceStepRow_mem_sub iid ch.inodeoffset ch.size j x a hx1)
      (spliceStepRow_mem_sub iid ch.inodeoffset ch.size j x b hx2)
  · have hq : (ch :: spliceRights iid ch.inodeoffset ch.size cs).Pairwise
        (fun d d' => j = iid →
          ∀ x, ¬(d.inodeoffset ≤ x ∧ x < d.inodeoffset + d.size ∧
            d'.inodeoffset ≤ x ∧ x < d'.inodeoffset + d'.size)) := by
      rw [List.pairwise_cons]
      constructor
      · intro d' hd' hji x hx
        obtain ⟨c, l, hc, hsel, hcov, hstr, heq⟩ :=
          spliceRights_mem_inv iid ch.inodeoffset ch.size cs d' hd'
        subst heq
        simp only [spliceRight] at hx
        omega
      · unfold spliceRights
        refine pairwise_filterMap_of _ ?_ cs hdisj
        intro a b hab d hfa d' hfb hji x hx
        rw [hji] at hab
        obtain ⟨la, hsela, hcova, hstra, heqa⟩ :=
          spliceRightSel_some_inv iid ch.inodeoffset ch.size a d hfa
        obtain ⟨lb, hselb, hcovb, hstrb, heqb⟩ :=
          spliceRightSel_some_inv iid ch.inodeoffset ch.size b d' hfb
        subst heqa
        subst heqb
        simp only [spliceRight] at hx
        obtain ⟨hla, hia, halt1, halt2⟩ :=
          spliceSel_some_inv iid ch.inodeoffset ch.size a la hsela
        obtain ⟨hlb, hib, hblt1, hblt2⟩ :=
          spliceSel_some_inv iid ch.inodeoffset ch.size b lb hselb
        obtain ⟨hsoa, hsea⟩ := chunkStrictlyContains_true _ _ la hstra
        obtain ⟨hsob, hseb⟩ := chunkStrictlyContains_true _ _ lb hstrb
        have hxa : rowMem iid x a := by
          rw [rowMem_live_some iid x a la hla]
          exact ⟨hia, by omega, by omega⟩
        have hxb : rowMem iid x b := by
          rw [rowMem_live_some iid x b lb hlb]
          exact ⟨hib, by omega, by omega⟩
        exact rowsDisjoint_mem_elim iid a b hab x hxa hxb
    refine pairwise_rowsFrom iid ?_ _ hq n
    intro k k' d d' hqd
    apply rowsDisjoint_of_mem
    intro x hx hx'
    obtain ⟨hj1, h1, h2⟩ := (rowMem_live_some j x _ _ rfl).mp hx
    obtain ⟨hj2, h3, h4⟩ := (rowMem_live_some j x _ _ rfl).mp hx'
    exact hqd hj1.symm x ⟨h1, h2, h3, h4⟩
  · intro a ha b hb
    obtain ⟨c, hc, heq⟩ := List.mem_map.mp ha
    subst heq
    apply rowsDisjoint_of_mem
    intro x hxa hxb
    obtain ⟨k, d, hd, heqb⟩ := rowsFrom_mem_inv iid n _ b hb
    subst heqb
    obtain ⟨hj, hx1, hx2⟩ := (rowMem_live_some j x _ _ rfl).mp hxb
    have hji : j = iid := hj.symm
    rw [hji] at hxa hdisj
    rcases List.mem_cons.mp hd with heqd | hd
    · rw [heqd] at hx1 hx2
      exact spliceStepRow_mem_avoid iid ch.inodeoffset ch.size x c hxa
        ⟨hx1, hx2⟩
    · obtain ⟨r, lr, hr, hsel, hcov, hstr, heqd⟩ :=
        spliceRights_mem_inv iid ch.inodeoffset ch.size cs d hd
      subst heqd
      simp only [spliceRight] at hx1 hx2
      obtain ⟨hlr, hlinode, hlt1, hlt2⟩ :=
        spliceSel_some_inv iid ch.inodeoffset ch.size r lr hsel
      obtain ⟨hso, hse⟩ := chunkStrictlyContains_true _ _ lr hstr
      have hxr : rowMem iid x r := by
        rw [rowMem_live_some iid x r lr hlr]
        exact ⟨hlinode, by omega, by omega⟩
      by_cases hcr : c = r
      · rw [← hcr] at hsel
        unfold spliceStepRow at hxa
        simp only [hsel] at hxa
        rw [if_neg (by simp [hcov] :
          ¬ chunkCovered ch.inodeoffset ch.size lr = true)] at hxa
        obtain ⟨_, hy1, hy2⟩ := (rowMem_live_some iid x _ _ rfl).mp hxa
        obtain ⟨hti, hcase⟩ := spliceTrim_iv iid ch.inodeoffset ch.size lr
        rcases hcase with ⟨hlo, ho, hs⟩ | ⟨hlo, ho, hs⟩
        · simp only [ho, hs] at hy1 hy2
          omega
        · exact absurd hso hlo
      · have hcr' := List.Pairwise.forall (rowsDisjoint_symm iid)
          hdisj hc hr hcr
        exact rowsDisjoint_mem_elim iid c r hcr' x
          (spliceStepRow_mem_sub iid ch.inodeoffset ch.size iid x c hxa)
          hxr

/-- Non-overlap is preserved by the straight-line body of `AddChunk`
under primary-key discipline and the containment invariant. -/
theorem addChunkBody_keeps_disjoint (s : State) (iid : Nat) (i : Inode)
    (ch : ChunkData) (j : Nat) (hids : chunkIdsOk s)
    (hwithin : ChunksWithin iid i.size s.chunks)
    (hdisj : ChunksDisjoint j s.chunks) :
    ChunksDisjoint j (addChunkBody s iid i ch).chunks := by
  rw [addChunkBody_eq s iid i ch hids]
  by_cases hgap : i.size < ch.inodeoffset
  · rw [if_pos hgap]
    have hdisj1 : ChunksDisjoint j (insertChunk s iid
        ⟨"zero", "", 0, i.size, ch.inodeoffset - i.size⟩).chunks := by
      dsimp only [insertChunk]
      apply chunksDisjoint_append_beyond j iid i.size s.chunks _
        hdisj hwithin
      intro x hx
      obtain ⟨hj, h1, h2⟩ := (rowMem_live_some j x _ _ rfl).mp hx
      exact ⟨hj.symm, h1⟩
    dsimp only [spliceResult1]
    exact splice_chunks_disjoint iid j _ ch _ hdisj1
  · rw [if_neg hgap]
    dsimp only [spliceResult1]
    exact splice_chunks_disjoint iid j _ ch _ hdisj

/-- The shrink pass only ever shrinks the interval a surviving row
maps. -/
theorem touchStepRow_mem_sub (iid sz' j x : Nat) (c : ChunkRow)
    (h : rowMem j x (touchStepRow iid sz' c)) : rowMem j x c := by
  unfold touchStepRow at h
  cases hsel : touchSel iid sz' c with
  | none =>
    rw [hsel] at h
    exact h
  | some l =>
    simp only [hsel] at h
    obtain ⟨hl, hi, hsz⟩ := touchSel_some_inv iid sz' c l hsel
    by_cases hoff : l.inodeoffset < sz'
    · rw [if_pos hoff] at h
      rw [hl] at h
      simp only [Option.map_some'] at h
      obtain ⟨hj, hx1, hx2⟩ := (rowMem_live_some j x _ _ rfl).mp h
      rw [rowMem_live_some j x c l hl]
      have hx1' : l.inodeoffset ≤ x := hx1
      have hx2' : x < l.inodeoffset + (sz' - l.inodeoffset) := hx2
      exact ⟨hj, hx1', by omega⟩
    · rw [if_neg hoff] at h
      rw [rowMem_iff] at h
      obtain ⟨l', hl', _⟩ := h
      cases hl'

/-- Non-overlap is preserved by the committed state of `Touch` under
primary-key discipline and the containment invariant. -/
theorem touchS_keeps_disjoint (s : State) (iid : Nat)
    (size? mode? uid? gid? : Option Nat) (i0 : Inode) (j : Nat)
    (hfind : findInode s iid = some i0)
    (hids : chunkIdsOk s)
    (hwithin : ChunksWithin iid i0.size s.chunks)
    (hdisj : ChunksDisjoint j s.chunks) :
    ChunksDisjoint j (touchS s iid size? mode? uid? gid?).chunks := by
  have hok := Touch_ok s iid size? mode? uid? gid? i0 hfind
  unfold touchS
  rw [hok]
  cases size? with
  | none =>
    rw [touchBody_eq_keep s iid i0 none mode? uid? gid? (Or.inl rfl)]
    exact hdisj
  | some sz' =>
    rcases Nat.lt_trichotomy sz' i0.size with hlt | heq | hgt
    · rw [touchBody_eq_shrink s iid i0 sz' mode? uid? gid? hlt hids]
      show ChunksDisjoint j (s.chunks.map (touchStepRow iid sz'))
      unfold ChunksDisjoint at hdisj ⊢
      rw [List.pairwise_map]
      refine List.Pairwise.imp ?_ hdisj
      intro a b hab
      apply rowsDisjoint_of_mem
      intro x hx1 hx2
      exact rowsDisjoint_mem_elim j a b hab x
        (touchStepRow_mem_sub iid sz' j x a hx1)
        (touchStepRow_mem_sub iid sz' j x b hx2)
    · rw [touchBody_eq_keep s iid i0 (some sz') mode? uid? gid?
        (Or.inr (by rw [heq]))]
      exact hdisj
    · rw [touchBody_eq_grow s iid i0 sz' mode? uid? gid? hgt]
      show ChunksDisjoint j (s.chunks ++
        [⟨s.nextChunkId, "zero", "", some ⟨iid, 0, i0.size, sz' - i0.size⟩⟩])
      apply chunksDisjoint_append_beyond j iid i0.size s.chunks _
        hdisj hwithin
      intro x hx
      obtain ⟨hj, h1, h2⟩ := (rowMem_live_some j x _ _ rfl).mp hx
      exact ⟨hj.symm, h1⟩

/-- Single-chunk state violating containment: the inode records size 0
while a live chunk maps `[0, 10)`. -/
def c2State : State :=
  { inodes := [⟨2, 420, 0, 0, 0, 1, ""⟩]
    entries := []
    chunks := [⟨1, "s3", "a", some ⟨2, 0, 0, 10⟩⟩]
    xattrs := []
    statsInodes := 2
    statsSize := 10
    nextInodeId := 3
    nextChunkId := 2 }

/-- C2 counterexample: pairwise disjointness of an inode's live chunks
is not, by itself, preserved by a committed `AddChunk`.  When the
containment invariant is broken (a live chunk `[0, 10)` on an inode of
recorded size 0), `AddChunk(off=5, len=3)` takes the sparse-gap branch
and inserts the zero-fill chunk `[0, 5)`, which overlaps the trimmed
left piece `[0, 5)` of the existing chunk. -/
theorem C2_disjoint_counterexample :
    ChunksDisjoint 2 c2State.chunks ∧
    ¬ ChunksDisjoint 2
      (addChunkS c2State 2 0 ⟨"s3", "b", 0, 5, 3⟩).chunks := by
  constructor
  · decide
  · decide

/-- C2 (amended): if before the operation the live chunks of every
inode are pairwise disjoint and the operated inode's live chunks obey
the containment invariant `inode_offset + size ≤ inode.size`, then
after a committed `AddChunk` (any flags) or `Touch` (any argument
combination) the live chunks of every inode `j` are still pairwise
disjoint — given the chunk table's primary-key discipline. -/
theorem C2_disjoint_preserved (s : State) (iid flags : Nat)
    (chunk0 : ChunkData) (size? mode? uid? gid? : Option Nat)
    (i : Inode) (j : Nat)
    (hfind : findInode s iid = some i)
    (hids : chunkIdsOk s)
    (hwithin : ChunksWithin iid i.size s.chunks)
    (hdisj : ChunksDisjoint j s.chunks) :
    ChunksDisjoint j (addChunkS s iid flags chunk0).chunks ∧
    ChunksDisjoint j (touchS s iid size? mode? uid? gid?).chunks := by
  constructor
  · have hok := AddChunk_ok s iid flags chunk0 i hfind
    unfold addChunkS
    rw [hok]
    exact addChunkBody_keeps_disjoint s iid i _ j hids hwithin hdisj
  · exact touchS_keeps_disjoint s iid size? mode? uid? gid? i j
      hfind hids hwithin hdisj

/-- Two-chunk state satisfying every hypothesis of the amended C2:
containment, disjointness and primary-key discipline all hold. -/
def c2OkState : State :=
  { inodes := [⟨2, 420, 0, 0, 100, 1, ""⟩]
    entries := []
    chunks := [⟨1, "s3", "a", some ⟨2, 0, 0, 50⟩⟩,
               ⟨2, "s3", "b", some ⟨2, 0, 50, 50⟩⟩]
    xattrs := []
    statsInodes := 2
    statsSize := 100
    nextInodeId := 3
    nextChunkId := 3 }

/-- Closed instantiation of the amended C2: an overwrite inside
`[0, 100)` and a truncation to 60 both keep the chunks of inode 2
pairwise disjoint. -/
theorem C2_disjoint_preserved_witness :
    ChunksDisjoint 2
      (addChunkS c2OkState 2 0 ⟨"s3", "c", 0, 20, 10⟩).chunks ∧
    ChunksDisjoint 2
      (touchS c2OkState 2 (some 60) none none none).chunks :=
  C2_disjoint_preserved c2OkState 2 0 ⟨"s3", "c", 0, 20, 10⟩
    (some 60) none none none ⟨2, 420, 0, 0, 100, 1, ""⟩ 2
    rfl (by decide) (by decide) (by decide)

/-! ## Refcount accuracy (spec §8), toward claim C7 -/

/-- Amended refcount accuracy: every inode's refcount equals the number
of entry rows referencing it, except the root (id 1), whose refcount
runs one ahead — `Setup` installs it with refcount 1 and no entry. -/
def refcountOk (s : State) : Prop :=
  ∀ i ∈ s.inodes, i.refcount = countRef s i.id + (if i.id = 1 then 1 else 0)

instance (s : State) : Decidable (refcountOk s) :=
  inferInstanceAs (Decidable (∀ i ∈ s.inodes,
    i.refcount = countRef s i.id + (if i.id = 1 then 1 else 0)))

/-- Refcount accuracy transports along any state change that keeps the
entry table and maps the inode rows preserving id and refcount. -/
theorem refcountOk_transport (s t : State) (f : Inode → Inode)
    (hent : t.entries = s.entries) (hin : t.inodes = s.inodes.map f)
    (hid : ∀ i, (f i).id = i.id) (hrc : ∀ i, (f i).refcount = i.refcount)
    (h : refcountOk s) : refcountOk t := by
  intro i hi
  rw [hin] at hi
  obtain ⟨i0, hi0, rfl⟩ := List.mem_map.mp hi
  have h0 := h i0 hi0
  rw [hrc i0, hid i0]
  have hcr : countRef t i0.id = countRef s i0.id := by
    unfold countRef
    rw [hent]
  rw [hcr]
  exact h0

/-- Refcount accuracy ignores entry renames that keep the `inode`
column. -/
theorem refcountOk_entries_map (s : State) (f : Entry → Entry)
    (hf : ∀ e, (f e).inode = e.inode) (h : refcountOk s) :
    refcountOk { s with entries := s.entries.map f } := by
  intro i hi
  have h0 := h i hi
  have hcr : countRef { s with entries := s.entries.map f } i.id
      = countRef s i.id := by
    unfold countRef
    show ((s.entries.map f).filter (fun e2 => e2.inode == i.id)).length = _
    rw [List.filter_map, List.length_map]
    congr 1
    apply List.filter_congr
    intro e he
    simp [Function.comp, hf e]
  rw [hcr]
  exact h0

theorem refcountOk_setXattrS (s : State) (iid : Nat) (attr value : String)
    (flags : Nat) (h : refcountOk s) :
    refcountOk (setXattrS s iid attr value flags) := by
  have hx : ∀ xs, refcountOk { s with xattrs := xs } := by
    intro xs i hi
    exact h i hi
  unfold setXattrS SetXattr
  by_cases hf1 : (flags == 1) = true
  · rw [if_pos hf1]
    by_cases hxs : (findXattr s iid attr).isSome = true
    · rw [if_pos hxs]
      exact h
    · rw [if_neg hxs]
      by_cases hfi : (findInode s iid).isNone = true
      · rw [if_pos hfi]
        exact h
      · rw [if_neg hfi]
        exact hx _
  · rw [if_neg hf1]
    by_cases hf2 : (flags == 2) = true
    · rw [if_pos hf2]
      cases hfx : findXattr s iid attr with
      | none => exact h
      | some x =>
        dsimp only
        by_cases hbe : (x.value == value) = true
        · rw [if_pos hbe]
          exact h
        · rw [if_neg hbe]
          exact hx _
    · rw [if_neg hf2]
      by_cases hxs : (findXattr s iid attr).isSome = true
      · rw [if_pos hxs]
        exact hx _
      · rw [if_neg hxs]
        by_cases hfi : (findInode s iid).isNone = true
        · rw [if_pos hfi]
          exact h
        · rw [if_neg hfi]
          exact hx _

theorem refcountOk_touchS (s : State) (iid : Nat)
    (size? mode? uid? gid? : Option Nat) (hids : chunkIdsOk s)
    (h : refcountOk s) : refcountOk (touchS s iid size? mode? uid? gid?) := by
  unfold touchS
  cases hfi : findInode s iid with
  | none =>
    have herr : Touch s iid size? mode? uid? gid? = .error .ENOENT := by
      unfold Touch getInode
      rw [hfi]
    rw [herr]
    exact h
  | some i0 =>
    rw [Touch_ok s iid size? mode? uid? gid? i0 hfi]
    cases size? with
    | none =>
      rw [touchBody_eq_keep s iid i0 none mode? uid? gid? (Or.inl rfl)]
      refine refcountOk_transport s _ _ rfl rfl ?_ ?_ h
      · intro i
        by_cases hb : (i.id == i0.id) = true <;> simp [hb]
      · intro i
        by_cases hb : (i.id == i0.id) = true <;> simp [hb]
    | some sz' =>
      rcases Nat.lt_trichotomy sz' i0.size with hlt | heq | hgt
      · rw [touchBody_eq_shrink s iid i0 sz' mode? uid? gid? hlt hids]
        refine refcountOk_transport s _ _ rfl rfl ?_ ?_ h
        · intro i
          by_cases hb : (i.id == i0.id) = true <;> simp [hb]
        · intro i
          by_cases hb : (i.id == i0.id) = true <;> simp [hb]
      · rw [touchBody_eq_keep s iid i0 (some sz') mode? uid? gid?
          (Or.inr (by rw [heq]))]
        refine refcountOk_transport s _ _ rfl rfl ?_ ?_ h
        · intro i
          by_cases hb : (i.id == i0.id) = true <;> simp [hb]
        · intro i
          by_cases hb : (i.id == i0.id) = true <;> simp [hb]
      · rw [touchBody_eq_grow s iid i0 sz' mode? uid? gid? hgt]
        refine refcountOk_transport s _ _ rfl rfl ?_ ?_ h
        · intro i
          by_cases hb : (i.id == i0.id) = true <;> simp [hb]
        · intro i
          by_cases hb : (i.id == i0.id) = true <;> simp [hb]

theorem refcountOk_addChunkS (s : State) (iid flags : Nat) (d : ChunkData)
    (hids : chunkIdsOk s) (h : refcountOk s) :
    refcountOk (addChunkS s iid flags d) := by
  unfold addChunkS
  cases hfi : findInode s iid with
  | none =>
    have herr : AddChunk s iid flags d = .error .ENOENT := by
      unfold AddChunk getInode
      rw [hfi]
    rw [herr]
    exact h
  | some i =>
    rw [AddChunk_ok s iid flags d i hfi]
    set ch := (if flags &&& 1024 != 0 then
      { d with inodeoffset := i.size } else d) with hch
    rw [addChunkBody_eq s iid i ch hids]
    refine refcountOk_transport s _
      (fun j => if j.id == i.id then
        { j with size := Nat.max i.size (ch.inodeoffset + ch.size) }
        else j)
      ?_ ?_ ?_ ?_ h
    · dsimp only [spliceResult1]
      by_cases hgap : i.size < ch.inodeoffset
      · rw [if_pos hgap]
        rfl
      · rw [if_neg hgap]
    · dsimp only [spliceResult1]
      by_cases hgap : i.size < ch.inodeoffset
      · rw [if_pos hgap]
        rfl
      · rw [if_neg hgap]
    · intro j
      by_cases hb : (j.id == i.id) = true <;> simp [hb]
    · intro j
      by_cases hb : (j.id == i.id) = true <;> simp [hb]

/-- A primary-key DELETE on a key-Nodup entry table removes exactly the
row `find?` located: the table splits around it and the filtered table
is the two remainders. -/
theorem find?_key_split (es : List Entry) (parent : Nat) (name : String)
    (e : Entry)
    (hfe : es.find? (fun e2 => e2.parent == parent && e2.name == name)
      = some e)
    (hnd : (es.map (fun e2 => (e2.parent, e2.name))).Nodup) :
    ∃ L1 L2, es = L1 ++ e :: L2 ∧
      es.filter (fun e2 => !(e2.parent == parent && e2.name == name))
        = L1 ++ L2 := by
  induction es with
  | nil => cases hfe
  | cons a es ih =>
    rw [List.map_cons, List.nodup_cons] at hnd
    obtain ⟨hna, hnd⟩ := hnd
    by_cases ha : (a.parent == parent && a.name == name) = true
    · rw [@List.find?_cons_of_pos Entry
        (fun e2 => e2.parent == parent && e2.name == name) a es ha] at hfe
      injection hfe with hfe
      subst hfe
      refine ⟨[], es, rfl, ?_⟩
      rw [List.filter_cons]
      have hnotkey : ∀ b ∈ es,
          (!(b.parent == parent && b.name == name)) = true := by
        intro b hb
        have hbk : ¬((b.parent == parent && b.name == name) = true) := by
          intro hbk
          apply hna
          simp only [Bool.and_eq_true, beq_iff_eq] at ha hbk
          rw [List.mem_map]
          exact ⟨b, hb, by rw [hbk.1, hbk.2, ha.1, ha.2]⟩
        simp only [Bool.not_eq_true']
        exact Bool.eq_false_iff.mpr hbk
      rw [ha]
      simp only [Bool.not_true, Bool.false_eq_true, if_false,
        List.nil_append]
      exact List.filter_eq_self.mpr hnotkey
    · rw [@List.find?_cons_of_neg Entry
        (fun e2 => e2.parent == parent && e2.name == name) a es ha] at hfe
      obtain ⟨L1, L2, heq, hfil⟩ := ih hfe hnd
      refine ⟨a :: L1, L2, by rw [heq, List.cons_append], ?_⟩
      rw [List.filter_cons]
      have ha' : (!(a.parent == parent && a.name == name)) = true := by
        simp only [Bool.not_eq_true']
        exact Bool.eq_false_iff.mpr ha
      rw [ha']
      simp only [if_true, List.cons_append, hfil]

theorem refcountOk_unlinkS (s : State) (parent : Nat) (name : String)
    (hnd : (s.entries.map (fun e2 => (e2.parent, e2.name))).Nodup)
    (h : refcountOk s) : refcountOk (unlinkS s parent name) := by
  unfold unlinkS Unlink unlink
  cases hfe : findEntry s parent name with
  | none => exact h
  | some e =>
    dsimp only
    by_cases hch : countChildren s e.inode > 0
    · rw [if_pos hch]
      exact h
    · rw [if_neg hch]
      unfold findEntry at hfe
      obtain ⟨L1, L2, heq, hfil⟩ :=
        find?_key_split s.entries parent name e hfe hnd
      have hbefore : ∀ k, countRef s k
          = (L1.filter (fun e2 => e2.inode == k)).length
            + (L2.filter (fun e2 => e2.inode == k)).length
            + (if e.inode == k then 1 else 0) := by
        intro k
        unfold countRef
        rw [heq, List.filter_append, List.length_append, List.filter_cons]
        by_cases hek : (e.inode == k) = true
        · rw [if_pos hek, if_pos hek, List.length_cons]
          omega
        · rw [if_neg hek, if_neg hek]
          rfl
      have hafter : ∀ k, countRef { s with
            entries := s.entries.filter
              (fun e2 => !(e2.parent == parent && e2.name == name))
            inodes := s.inodes.map (fun i0 =>
              if i0.id == e.inode then
                { i0 with refcount := i0.refcount - 1 } else i0) } k
          = (L1.filter (fun e2 => e2.inode == k)).length
            + (L2.filter (fun e2 => e2.inode == k)).length := by
        intro k
        unfold countRef
        show (((s.entries.filter
            (fun e2 => !(e2.parent == parent && e2.name == name)))).filter
              (fun e2 => e2.inode == k)).length = _
        rw [hfil, List.filter_append, List.length_append]
      intro i hi
      have hi' : i ∈ s.inodes.map (fun i0 =>
          if i0.id == e.inode then { i0 with refcount := i0.refcount - 1 }
          else i0) := hi
      obtain ⟨i0, hi0, hieq⟩ := List.mem_map.mp hi'
      have h0 := h i0 hi0
      by_cases hbid : (i0.id == e.inode) = true
      · rw [if_pos hbid] at hieq
        subst hieq
        have hide : i0.id = e.inode := by simpa using hbid
        show i0.refcount - 1 = countRef { s with
            entries := s.entries.filter
              (fun e2 => !(e2.parent == parent && e2.name == name))
            inodes := s.inodes.map (fun i0 =>
              if i0.id == e.inode then
                { i0 with refcount := i0.refcount - 1 } else i0) } i0.id
          + (if i0.id = 1 then 1 else 0)
        rw [hafter i0.id]
        have hek : (e.inode == i0.id) = true := by simp [hide]
        rw [hbefore i0.id, if_pos hek] at h0
        by_cases hr1 : i0.id = 1
        · rw [if_pos hr1] at h0 ⊢
          omega
        · rw [if_neg hr1] at h0 ⊢
          omega
      · rw [if_neg hbid] at hieq
        subst hieq
        show i0.refcount = countRef { s with
            entries := s.entries.filter
              (fun e2 => !(e2.parent == parent && e2.name == name))
            inodes := s.inodes.map (fun i0 =>
              if i0.id == e.inode then
                { i0 with refcount := i0.refcount - 1 } else i0) } i0.id
          + (if i0.id = 1 then 1 else 0)
        rw [hafter i0.id]
        have hne : ¬ i0.id = e.inode := by simpa using hbid
        have hek : ¬ ((e.inode == i0.id) = true) := by
          intro hx
          have hx' : e.inode = i0.id := by simpa using hx
          exact hne hx'.symm
        rw [hbefore i0.id, if_neg hek] at h0
        by_cases hr1 : i0.id = 1
        · rw [if_pos hr1] at h0 ⊢
          omega
        · rw [if_neg hr1] at h0 ⊢
          omega

/-- A successful relocation UPDATE either changed nothing or mapped the
entry rows, relocating the `(parent, name)` key and keeping the `inode`
column. -/
theorem renameUpdate_ok_inv (t : State) (oldParent : Nat)
    (oldName : String) (newParent : Nat) (newName : String)
    (s2 : State) (ra : Nat)
    (h : renameUpdate t oldParent oldName newParent newName
      = .ok (s2, ra)) :
    s2 = t ∨ s2 = { t with entries := t.entries.map (fun e2 =>
      if e2.parent == oldParent && e2.name == oldName then
        { e2 with parent := newParent, name := newName }
      else e2) } := by
  unfold renameUpdate at h
  cases hfe : findEntry t oldParent oldName with
  | none =>
    rw [hfe] at h
    injection h with h
    cases h
    exact Or.inl rfl
  | some e =>
    simp only [hfe] at h
    by_cases hsame : (e.parent == newParent && e.name == newName) = true
    · rw [if_pos hsame] at h
      injection h with h
      cases h
      exact Or.inl rfl
    · rw [if_neg hsame] at h
      by_cases hdup : (t.entries.any (fun e2 =>
          !(e2.parent == oldParent && e2.name == oldName) &&
          e2.parent == newParent && e2.name == newName)) = true
      · rw [if_pos hdup] at h
        cases h
      · rw [if_neg hdup] at h
        injection h with h
        cases h
        exact Or.inr rfl

theorem refcountOk_renameS (s : State) (oldParent : Nat)
    (oldName : String) (newParent : Nat) (newName : String)
    (hnd : (s.entries.map (fun e2 => (e2.parent, e2.name))).Nodup)
    (h : refcountOk s) :
    refcountOk (renameS s oldParent oldName newParent newName) := by
  have h1 : refcountOk (unlinkS s newParent newName) :=
    refcountOk_unlinkS s newParent newName hnd h
  unfold renameS Rename
  cases hu : unlink s newParent newName with
  | error e =>
    simp only [hu]
    cases hru : renameUpdate s oldParent oldName newParent newName with
    | error e2 => simp only [hru]; exact h
    | ok p =>
      obtain ⟨s2, ra⟩ := p
      simp only [hru]
      by_cases hra : (ra == 0) = true
      · rw [if_pos hra]
        exact h
      · rw [if_neg hra]
        rcases renameUpdate_ok_inv s oldParent oldName newParent newName
          s2 ra hru with rfl | hmap
        · exact h
        · rw [hmap]
          refine refcountOk_entries_map s _ ?_ h
          intro e2
          by_cases hk :
            (e2.parent == oldParent && e2.name == oldName) = true <;>
            simp [hk]
  | ok t =>
    simp only [hu]
    have h1' : refcountOk t := by
      unfold unlinkS Unlink at h1
      rw [hu] at h1
      exact h1
    cases hru : renameUpdate t oldParent oldName newParent newName with
    | error e2 => simp only [hru]; exact h
    | ok p =>
      obtain ⟨s2, ra⟩ := p
      simp only [hru]
      by_cases hra : (ra == 0) = true
      · rw [if_pos hra]
        exact h
      · rw [if_neg hra]
        rcases renameUpdate_ok_inv t oldParent oldName newParent newName
          s2 ra hru with rfl | hmap
        · exact h1'
        · rw [hmap]
          refine refcountOk_entries_map t _ ?_ h1'
          intro e2
          by_cases hk :
            (e2.parent == oldParent && e2.name == oldName) = true <;>
            simp [hk]

/-- Inversion of a committed `Create`: either the fresh-inode path ran
(statistics bumped, a fresh refcount-1 inode row appended and the new
entry bound to it, no extra refcount write) or the hard-link path ran
(entry appended and the target inode's refcount bumped). -/
theorem Create_ok_inv (s : State) (a : CreateArgs) (tid : Nat) (t : State)
    (h : Create s a = .ok (tid, t)) :
    (a.id = 0 ∧ tid = s.nextInodeId ∧
      t = { s with
        statsInodes := s.statsInodes + 1
        inodes := s.inodes ++
          [⟨s.nextInodeId, a.mode, a.uid, a.gid, 0, 1, a.symlink⟩]
        nextInodeId := s.nextInodeId + 1
        entries := s.entries ++ [⟨a.parent, a.name, s.nextInodeId⟩] }) ∨
    (¬ a.id = 0 ∧ tid = a.id ∧
      t = { s with
        entries := s.entries ++ [⟨a.parent, a.name, a.id⟩]
        inodes := s.inodes.map (fun i =>
          if i.id == a.id then { i with refcount := i.refcount + 1 }
          else i) }) := by
  unfold Create at h
  cases hp : getInode s a.parent with
  | error e =>
    rw [hp] at h
    cases h
  | ok parentInode =>
    simp only [hp] at h
    by_cases hdir : (!modeIsDir parentInode.mode) = true
    · rw [if_pos hdir] at h
      cases h
    · rw [if_neg hdir] at h
      by_cases hid0 : (a.id == 0) = true
      · rw [if_pos hid0] at h
        dsimp only at h
        cases hg : getInode { s with
            statsInodes := s.statsInodes + 1
            inodes := s.inodes ++
              [⟨s.nextInodeId, a.mode, a.uid, a.gid, 0, 1, a.symlink⟩]
            nextInodeId := s.nextInodeId + 1 } s.nextInodeId with
        | error e =>
          simp only [hg] at h
          cases h
        | ok fresh =>
          simp only [hg] at h
          by_cases hfe : (findEntry { s with
              statsInodes := s.statsInodes + 1
              inodes := s.inodes ++
                [⟨s.nextInodeId, a.mode, a.uid, a.gid, 0, 1, a.symlink⟩]
              nextInodeId := s.nextInodeId + 1 } a.parent a.name).isSome
            = true
          · rw [if_pos hfe] at h
            cases h
          · rw [if_neg hfe] at h
            injection h with h
            cases h
            refine Or.inl ⟨by simpa using hid0, rfl, rfl⟩
      · rw [if_neg hid0] at h
        dsimp only at h
        cases hg : getInode s a.id with
        | error e =>
          simp only [hg] at h
          cases h
        | ok linked =>
          simp only [hg] at h
          by_cases hfe : (findEntry s a.parent a.name).isSome = true
          · rw [if_pos hfe] at h
            cases h
          · rw [if_neg hfe] at h
            injection h with h
            cases h
            refine Or.inr ⟨by simpa using hid0, rfl, rfl⟩

theorem refcountOk_createS (s : State) (a : CreateArgs)
    (hidlt : ∀ i ∈ s.inodes, i.id < s.nextInodeId)
    (helt : ∀ e ∈ s.entries, e.inode < s.nextInodeId)
    (hroot : 1 < s.nextInodeId)
    (h : refcountOk s) : refcountOk (createS s a) := by
  unfold createS
  cases hc : Create s a with
  | error e => exact h
  | ok p =>
    obtain ⟨tid, t⟩ := p
    rcases Create_ok_inv s a tid t hc with ⟨hid0, htid, ht⟩ |
      ⟨hid0, htid, ht⟩
    · subst ht
      have hcount : ∀ k, countRef { s with
            statsInodes := s.statsInodes + 1
            inodes := s.inodes ++
              [⟨s.nextInodeId, a.mode, a.uid, a.gid, 0, 1, a.symlink⟩]
            nextInodeId := s.nextInodeId + 1
            entries := s.entries ++ [⟨a.parent, a.name, s.nextInodeId⟩] } k
          = countRef s k + (if s.nextInodeId == k then 1 else 0) := by
        intro k
        unfold countRef
        show ((s.entries ++ [(⟨a.parent, a.name, s.nextInodeId⟩ : Entry)]).filter
            (fun e2 => e2.inode == k)).length
          = (s.entries.filter (fun e2 => e2.inode == k)).length
            + (if s.nextInodeId == k then 1 else 0)
        rw [List.filter_append, List.length_append, List.filter_cons]
        by_cases hek : (s.nextInodeId == k) = true
        · rw [if_pos hek, if_pos hek]
          simp only [List.filter_nil, List.length_cons, List.length_nil]
        · rw [if_neg hek, if_neg hek]
          simp only [List.filter_nil, List.length_nil]
      intro i hi
      have hi' : i ∈ s.inodes ++
          [⟨s.nextInodeId, a.mode, a.uid, a.gid, 0, 1, a.symlink⟩] := hi
      rcases List.mem_append.mp hi' with hold | hnew
      · have h0 := h i hold
        have hlt := hidlt i hold
        show i.refcount = countRef { s with
            statsInodes := s.statsInodes + 1
            inodes := s.inodes ++
              [⟨s.nextInodeId, a.mode, a.uid, a.gid, 0, 1, a.symlink⟩]
            nextInodeId := s.nextInodeId + 1
            entries := s.entries ++ [⟨a.parent, a.name, s.nextInodeId⟩] }
            i.id
          + (if i.id = 1 then 1 else 0)
        rw [hcount i.id]
        have hne : ¬((s.nextInodeId == i.id) = true) := by
          simp only [beq_iff_eq]
          omega
        rw [if_neg hne]
        by_cases hr1 : i.id = 1
        · rw [if_pos hr1] at h0 ⊢
          omega
        · rw [if_neg hr1] at h0 ⊢
          omega
      · have hieq : i = ⟨s.nextInodeId, a.mode, a.uid, a.gid, 0, 1,
            a.symlink⟩ := by
          simpa using hnew
        subst hieq
        show (1 : Nat) = countRef { s with
            statsInodes := s.statsInodes + 1
            inodes := s.inodes ++
              [⟨s.nextInodeId, a.mode, a.uid, a.gid, 0, 1, a.symlink⟩]
            nextInodeId := s.nextInodeId + 1
            entries := s.entries ++ [⟨a.parent, a.name, s.nextInodeId⟩] }
            s.nextInodeId
          + (if s.nextInodeId = 1 then 1 else 0)
        rw [hcount s.nextInodeId]
        have hself : (s.nextInodeId == s.nextInodeId) = true := by simp
        rw [if_pos hself]
        have hzero : countRef s s.nextInodeId = 0 := by
          unfold countRef
          rw [List.length_eq_zero, List.filter_eq_nil_iff]
          intro e he
          have := helt e he
          simp only [beq_iff_eq]
          omega
        rw [hzero, if_neg (by omega : ¬ s.nextInodeId = 1)]
    · subst ht
      have hcount : ∀ k, countRef { s with
            entries := s.entries ++ [⟨a.parent, a.name, a.id⟩]
            inodes := s.inodes.map (fun i =>
              if i.id == a.id then { i with refcount := i.refcount + 1 }
              else i) } k
          = countRef s k + (if a.id == k then 1 else 0) := by
        intro k
        unfold countRef
        show ((s.entries ++ [(⟨a.parent, a.name, a.id⟩ : Entry)]).filter
            (fun e2 => e2.inode == k)).length
          = (s.entries.filter (fun e2 => e2.inode == k)).length
            + (if a.id == k then 1 else 0)
        rw [List.filter_append, List.length_append, List.filter_cons]
        by_cases hek : (a.id == k) = true
        · rw [if_pos hek, if_pos hek]
          simp only [List.filter_nil, List.length_cons, List.length_nil]
        · rw [if_neg hek, if_neg hek]
          simp only [List.filter_nil, List.length_nil]
      intro i hi
      have hi' : i ∈ s.inodes.map (fun i0 =>
          if i0.id == a.id then { i0 with refcount := i0.refcount + 1 }
          else i0) := hi
      obtain ⟨i0, hi0, hieq⟩ := List.mem_map.mp hi'
      have h0 := h i0 hi0
      by_cases hbid : (i0.id == a.id) = true
      · rw [if_pos hbid] at hieq
        subst hieq
        have hide : i0.id = a.id := by simpa using hbid
        show i0.refcount + 1 = countRef { s with
            entries := s.entries ++ [⟨a.parent, a.name, a.id⟩]
            inodes := s.inodes.map (fun i =>
              if i.id == a.id then { i with refcount := i.refcount + 1 }
              else i) } i0.id
          + (if i0.id = 1 then 1 else 0)
        rw [hcount i0.id]
        have hek : (a.id == i0.id) = true := by simp [hide]
        rw [if_pos hek]
        by_cases hr1 : i0.id = 1
        · rw [if_pos hr1] at h0 ⊢
          omega
        · rw [if_neg hr1] at h0 ⊢
          omega
      · rw [if_neg hbid] at hieq
        subst hieq
        have hne : ¬ i0.id = a.id := by simpa using hbid
        show i0.refcount = countRef { s with
            entries := s.entries ++ [⟨a.parent, a.name, a.id⟩]
            inodes := s.inodes.map (fun i =>
              if i.id == a.id then { i with refcount := i.refcount + 1 }
              else i) } i0.id
          + (if i0.id = 1 then 1 else 0)
        rw [hcount i0.id]
        have hek : ¬((a.id == i0.id) = true) := by
          intro hx
          have hx' : a.id = i0.id := by simpa using hx
          exact hne hx'.symm
        rw [if_neg hek]
        by_cases hr1 : i0.id = 1
        · rw [if_pos hr1] at h0 ⊢
          omega
        · rw [if_neg hr1] at h0 ⊢
          omega

/-- C7 counterexample: the claimed accuracy `refcount =
COUNT(entries WHERE inode = id)` fails already for the state `Setup`
installs — the root inode has refcount 1 while no entry row references
it. -/
theorem C7_refcount_counterexample :
    ¬ ∀ i ∈ setupState.inodes, i.refcount = countRef setupState i.id := by
  decide

/-- C7 (amended): refcount accuracy with the root offset by one — every
inode's refcount equals the number of entry rows referencing it plus
one for the root (id 1) — holds after `Setup` and is preserved by every
committed operation: `Create` (under the inode-id/foreign-key bounds of
the auto-increment cursor), `Unlink` and `Rename` (under the entry
table's primary-key discipline), `Touch` and `AddChunk` (under the
chunk table's primary-key discipline) and `SetXattr`. -/
theorem C7_refcount_invariant :
    refcountOk setupState ∧
    (∀ s a, (∀ i ∈ s.inodes, i.id < s.nextInodeId) →
      (∀ e ∈ s.entries, e.inode < s.nextInodeId) →
      1 < s.nextInodeId →
      refcountOk s → refcountOk (createS s a)) ∧
    (∀ s parent name,
      (s.entries.map (fun e2 => (e2.parent, e2.name))).Nodup →
      refcountOk s → refcountOk (unlinkS s parent name)) ∧
    (∀ s oldParent oldName newParent newName,
      (s.entries.map (fun e2 => (e2.parent, e2.name))).Nodup →
      refcountOk s →
      refcountOk (renameS s oldParent oldName newParent newName)) ∧
    (∀ s iid size? mode? uid? gid?, chunkIdsOk s →
      refcountOk s → refcountOk (touchS s iid size? mode? uid? gid?)) ∧
    (∀ s iid flags d, chunkIdsOk s →
      refcountOk s → refcountOk (addChunkS s iid flags d)) ∧
    (∀ s iid attr value flags,
      refcountOk s → refcountOk (setXattrS s iid attr value flags)) :=
  ⟨by decide,
   fun s a h1 h2 h3 h => refcountOk_createS s a h1 h2 h3 h,
   fun s parent name hnd h => refcountOk_unlinkS s parent name hnd h,
   fun s op onm np nnm hnd h => refcountOk_renameS s op onm np nnm hnd h,
   fun s iid size? mode? uid? gid? hids h =>
     refcountOk_touchS s iid size? mode? uid? gid? hids h,
   fun s iid flags d hids h => refcountOk_addChunkS s iid flags d hids h,
   fun s iid attr value flags h =>
     refcountOk_setXattrS s iid attr value flags h⟩

/-- Closed instantiation of the amended C7 at the `Setup` state: each
conjunct applied to concrete arguments with every hypothesis
discharged by evaluation. -/
theorem C7_refcount_invariant_witness :
    refcountOk (createS setupState ⟨1, "f", 0, 420, 0, 0, ""⟩) ∧
    refcountOk (unlinkS setupState 1 "f") ∧
    refcountOk (renameS setupState 1 "a" 1 "b") ∧
    refcountOk (touchS setupState 1 (some 5) none none none) ∧
    refcountOk (addChunkS setupState 1 0 ⟨"s3", "k", 0, 0, 4⟩) ∧
    refcountOk (setXattrS setupState 1 "u" "v" 0) :=
  ⟨C7_refcount_invariant.2.1 setupState ⟨1, "f", 0, 420, 0, 0, ""⟩
     (by decide) (by decide) (by decide) (by decide),
   C7_refcount_invariant.2.2.1 setupState 1 "f" (by decide) (by decide),
   C7_refcount_invariant.2.2.2.1 setupState 1 "a" 1 "b"
     (by decide) (by decide),
   C7_refcount_invariant.2.2.2.2.1 setupState 1 (some 5) none none none
     (by decide) (by decide),
   C7_refcount_invariant.2.2.2.2.2.1 setupState 1 0 ⟨"s3", "k", 0, 0, 4⟩
     (by decide) (by decide),
   C7_refcount_invariant.2.2.2.2.2.2 setupState 1 "u" "v" 0 (by decide)⟩
